import Mathlib

/-!
Shallow embedding of the tenant/user membership and ownership lifecycle of
django-tenant-users (src/tenant_users/tenants/models/tenant.py,
src/tenant_users/tenants/models/user.py, src/tenant_users/tenants/managers.py).

The relational store is modelled as an explicit state (`SysState`) holding the
global user table, every tenant row together with its schema-local
`UserTenantPermissions` table and membership links, and the connection's
currently active schema name.  Django exceptions become the `Err` enumeration
and every operation returns a `Res` value that carries the state reached at the
moment of return or raise (Django performs no rollback unless an operation is
wrapped in `transaction.atomic`, which is modelled by `atomic`).
-/

namespace TenantUsers

/-- Primary key of a user profile row. -/
abbrev UserId := Nat

/-- Password credential as stored by Django's `set_password`: a hash of the raw
password, or the "unusable password" marker. -/
inductive Cred where
  | hashed (raw : String)
  | unusable
deriving DecidableEq, Repr

/-- A row of the global user profile table (models/user.py `UserProfile`,
stored in the public schema only). -/
structure UserRec where
  pk : UserId
  email : String
  is_active : Bool
  is_verified : Bool
  cred : Cred
deriving DecidableEq, Repr

/-- A `UserTenantPermissions` row: per-tenant staff/superuser flags and the
set of group links, keyed by the owning user profile (`profile` is a
one-to-one field, so at most one row per user per schema). -/
structure Perm where
  is_staff : Bool
  is_superuser : Bool
  groups : List Nat
deriving DecidableEq, Repr

/-- A tenant row (models/tenant.py `TenantBase`) together with the data living
in its schema: the member set of the `tenants` many-to-many relation and the
schema-local `UserTenantPermissions` table. -/
structure Tenant where
  schema_name : String
  domain_url : String
  owner : UserId
  members : List UserId
  perms : List (UserId × Perm)
deriving DecidableEq, Repr

/-- The in-memory Django model instance of `TenantBase` on which the methods
run: only the row fields.  Field writes such as `self.owner = new_owner`
change this value and reach the database only on `self.save()`. -/
structure TenantObj where
  schema_name : String
  domain_url : String
  owner : UserId
deriving DecidableEq, Repr

/-- The in-memory instance corresponding to a tenant row. -/
def objOf (t : Tenant) : TenantObj :=
  ⟨t.schema_name, t.domain_url, t.owner⟩

/-- The whole relational store plus the connection's active schema.
`nextPk` models the auto-increment primary key sequence of the user table and
`now` the value returned by `time.time()`. -/
structure SysState where
  users : List UserRec
  tenants : List Tenant
  schema_name : String
  nextPk : UserId
  now : Nat
deriving DecidableEq, Repr

/-- Exceptions raised by the embedded code: `SchemaError`, `ExistsError`,
`DeleteError`, the ORM's `DoesNotExist`/`RelatedObjectDoesNotExist`, Python's
`ValueError` (the spec's ValidationError) and Python's `NameError`. -/
inductive Err where
  | schemaError
  | existsError
  | deleteError
  | doesNotExist
  | valueError
  | nameError
deriving DecidableEq, Repr

/-- Outcome of an operation: normal return or raised exception, in both cases
together with the database state at that moment (no implicit rollback). -/
inductive Res (α : Type) where
  | ok (a : α) (s : SysState)
  | err (e : Err) (s : SysState)
deriving DecidableEq

/-- The state in which an operation left the store, on either exit path. -/
def Res.stateOf : Res α → SysState
  | .ok _ s => s
  | .err _ s => s

/-- The exception raised, if any. -/
def Res.errOf : Res α → Option Err
  | .ok _ _ => none
  | .err e _ => some e

/-- Did the operation return normally? -/
def Res.isOk : Res α → Bool
  | .ok _ _ => true
  | .err _ _ => false

/-- `django_tenants.utils.get_public_schema_name()` (default settings). -/
def publicSchemaName : String := "public"

/-- `get_tenant_model().objects.get(schema_name=name)` / queryset lookups of a
tenant row by its unique schema name. -/
def getTenant (s : SysState) (name : String) : Option Tenant :=
  s.tenants.find? (fun t => t.schema_name == name)

/-- Update the tenant row (and schema data) with the given schema name. -/
def updT (name : String) (f : Tenant → Tenant) (s : SysState) : SysState :=
  { s with tenants := s.tenants.map (fun t => if t.schema_name == name then f t else t) }

/-- `connection.set_schema(name)`. -/
def setSchema (name : String) (s : SysState) : SysState :=
  { s with schema_name := name }

/-- The `schema_required` decorator (tenant.py lines 15-30): save the
connection's current schema, switch to the tenant's schema, run the body, and
restore the saved schema in a `finally` block on both exit paths. -/
def schema_required (tenant_schema : String) (body : SysState → Res α) (s : SysState) : Res α :=
  let saved := s.schema_name
  match body (setSchema tenant_schema s) with
  | .ok a s' => .ok a (setSchema saved s')
  | .err e s' => .err e (setSchema saved s')

/-- `UserTenantPermissions.objects.create(profile=u, is_staff=.., is_superuser=..)`:
inserts into the permissions table of the connection's active schema. -/
def permsCreate (u : UserId) (p : Perm) (s : SysState) : SysState :=
  updT s.schema_name (fun t => { t with perms := t.perms ++ [(u, p)] }) s

/-- `user_obj.usertenantpermissions`: the one-to-one permissions row of the
user in the active schema, if it exists. -/
def permsGet (u : UserId) (s : SysState) : Option Perm :=
  (getTenant s s.schema_name).bind fun t =>
    (t.perms.find? (fun q => q.1 == u)).map (fun q => q.2)

/-- Saving a mutated permissions row back (`perm.save()`), active schema. -/
def permsSet (u : UserId) (p : Perm) (s : SysState) : SysState :=
  updT s.schema_name
    (fun t => { t with perms := t.perms.map (fun q => if q.1 == u then (u, p) else q) }) s

/-- `UserTenantPermissions.objects.filter(pk=perm.pk).delete()`, active schema. -/
def permsDelete (u : UserId) (s : SysState) : SysState :=
  updT s.schema_name (fun t => { t with perms := t.perms.filter (fun q => q.1 != u) }) s

/-- `user_obj.tenants.add(tenant)`: insert the membership link (set semantics). -/
def m2mAdd (name : String) (u : UserId) (s : SysState) : SysState :=
  updT name (fun t => if u ∈ t.members then t else { t with members := t.members ++ [u] }) s

/-- `user_obj.tenants.remove(tenant)`: delete the membership link. -/
def m2mRemove (name : String) (u : UserId) (s : SysState) : SysState :=
  updT name (fun t => { t with members := t.members.filter (fun v => v != u) }) s

/-- `TenantBase.add_user` (tenant.py lines 67-96), `@schema_required`:
raise `ExistsError` when the user is already linked, otherwise create the
permissions row in the tenant's schema and add the membership link. -/
def add_user (self : TenantObj) (user_pk : UserId) (is_superuser is_staff : Bool)
    (s : SysState) : Res Unit :=
  schema_required self.schema_name (fun s =>
    match getTenant s self.schema_name with
    | none => .err .doesNotExist s
    | some t =>
      if user_pk ∈ t.members then .err .existsError s
      else
        let s := permsCreate user_pk ⟨is_staff, is_superuser, []⟩ s
        let s := m2mAdd self.schema_name user_pk s
        .ok () s) s

/-- `TenantBase.remove_user` (tenant.py lines 98-124), `@schema_required`:
require membership (`DoesNotExist` otherwise), refuse to remove the in-memory
owner (`DeleteError`), then clear the user's groups, delete the permissions
row and remove the membership link. -/
def remove_user (self : TenantObj) (user_pk : UserId) (s : SysState) : Res Unit :=
  schema_required self.schema_name (fun s =>
    match getTenant s self.schema_name with
    | none => .err .doesNotExist s
    | some t =>
      if user_pk ∉ t.members then .err .doesNotExist s
      else if user_pk = self.owner then .err .deleteError s
      else
        match permsGet user_pk s with
        | none => .err .doesNotExist s
        | some p =>
          let s := permsSet user_pk { p with groups := [] } s
          let s := permsDelete user_pk s
          let s := m2mRemove self.schema_name user_pk s
          .ok () s) s

/-- `TenantBase.transfer_ownership` (tenant.py lines 168-193), `@schema_required`
but *not* wrapped in a transaction: demote the old owner's permissions row
(persisted immediately by `save()`), set `self.owner` in memory, remove the old
owner when they have no groups left, promote the new owner's permissions row or
add them as a user, and finally persist the tenant row with `self.save()`. -/
def transfer_ownership (self : TenantObj) (new_owner : UserId) (s : SysState) : Res TenantObj :=
  schema_required self.schema_name (fun s =>
    let old_owner := self.owner
    match permsGet old_owner s with
    | none => .err .doesNotExist s
    | some old_perm =>
      let s := permsSet old_owner { old_perm with is_superuser := false } s
      let self := { self with owner := new_owner }
      let step1 : Res Unit :=
        if old_perm.groups.isEmpty then remove_user self old_owner s else .ok () s
      match step1 with
      | .err e s => .err e s
      | .ok _ s =>
        let isMember : Bool :=
          match getTenant s self.schema_name with
          | some t => decide (new_owner ∈ t.members)
          | none => false
        let step2 : Res Unit :=
          if isMember then
            match permsGet new_owner s with
            | none => .err .doesNotExist s
            | some np => .ok () (permsSet new_owner { np with is_superuser := true } s)
          else
            add_user self new_owner true false s
        match step2 with
        | .err e s => .err e s
        | .ok _ s =>
          let s := updT self.schema_name
            (fun t => { t with owner := self.owner, domain_url := self.domain_url }) s
          .ok self s) s

/-- The `for user_obj in self.user_set.all()` loop of `delete_tenant`: remove
every member of the snapshot except the owner. -/
def removeLoop (self : TenantObj) : List UserId → SysState → Res Unit
  | [], s => .ok () s
  | u :: rest, s =>
    if u = self.owner then removeLoop self rest s
    else
      match remove_user self u s with
      | .ok _ s => removeLoop self rest s
      | .err e s => .err e s

/-- `TenantBase.delete_tenant` (tenant.py lines 126-166): refuse the public
tenant (`ValueError`), remove every non-owner member, tombstone the domain url
in memory, transfer ownership to the public tenant's owner, and finally remove
the old owner — but guarded by a membership test on the stale loop variable
`user_obj` (the last member iterated), exactly as the source does.  When the
member snapshot was empty the reference to `user_obj` raises `NameError`. -/
def delete_tenant (self : TenantObj) (s : SysState) : Res TenantObj :=
  if self.schema_name = publicSchemaName then .err .valueError s
  else
    match getTenant s self.schema_name with
    | none => .err .doesNotExist s
    | some t0 =>
      match removeLoop self t0.members s with
      | .err e s => .err e s
      | .ok _ s =>
        let time_string := toString s.now
        let new_url := time_string ++ "-" ++ toString self.owner ++ "-" ++ self.domain_url
        let self := { self with domain_url := new_url }
        match getTenant s publicSchemaName with
        | none => .err .doesNotExist s
        | some public_tenant =>
          let old_owner := self.owner
          match transfer_ownership self public_tenant.owner s with
          | .err e s => .err e s
          | .ok self s =>
            match t0.members.getLast? with
            | none => .err .nameError s
            | some last_user =>
              let stillThere : Bool :=
                match getTenant s self.schema_name with
                | some t => decide (last_user ∈ t.members)
                | none => false
              if stillThere then
                match remove_user self old_owner s with
                | .err e s => .err e s
                | .ok _ s => .ok self s
              else .ok self s

/-- Python truthiness of the optional password argument (`if not password`):
`None` and the empty string are falsy. -/
def pwFalsy : Option String → Bool
  | none => true
  | some p => p.isEmpty

/-- Django's `set_password`: hash the raw password, or mark the credential
unusable when `None` is given. -/
def set_password : Option String → Cred
  | none => .unusable
  | some p => .hashed p

/-- `email.strip()`: drop leading and trailing whitespace characters. -/
def trimChars (l : List Char) : List Char :=
  ((l.dropWhile (fun c => c.isWhitespace)).reverse.dropWhile
    (fun c => c.isWhitespace)).reverse

/-- `rsplit(sep, 1)` on a character list: split at the last occurrence of
`sep`, returning the parts before and after it, or `none` when absent. -/
def splitLastAt (sep : Char) : List Char → Option (List Char × List Char)
  | [] => none
  | c :: cs =>
    match splitLastAt sep cs with
    | some (l, r) => some (c :: l, r)
    | none => if c = sep then some ([], cs) else none

/-- Django's `BaseUserManager.normalize_email` (external library helper):
strip, split at the last `@` (`rsplit("@", 1)`), lowercase the domain part;
strings without an `@` are returned unchanged. -/
def normalize_email (email : String) : String :=
  let e : String := ⟨trimChars email.data⟩
  match splitLastAt '@' e.data with
  | none => e
  | some (l, r) => (⟨l⟩ : String) ++ "@" ++ (⟨r.map Char.toLower⟩ : String)

/-- `profile.save()` / `user.save()`: update the row with the same primary key
or insert a new row (bumping the auto-increment sequence). -/
def saveUser (u : UserRec) (s : SysState) : SysState :=
  if s.users.any (fun v => v.pk == u.pk) then
    { s with users := s.users.map (fun v => if v.pk == u.pk then u else v) }
  else
    { s with users := s.users ++ [u], nextPk := s.nextPk + 1 }

/-- The `for attr, value in extra_fields.items(): setattr(profile, attr, value)`
loop of `_create_user`, restricted to the boolean profile fields of this model
(writes to fields outside the model are invisible here).  Note that Python
rejects `is_staff`, `is_superuser` and `is_verified` keys in `extra_fields`
with a `TypeError` before `_create_user` runs, because they would duplicate the
explicit keyword arguments of the `create_user`/`create_superuser` calls. -/
def applyExtra (extra : List (String × Bool)) (u : UserRec) : UserRec :=
  extra.foldl
    (fun v kv =>
      if kv.1 == "is_active" then { v with is_active := kv.2 }
      else if kv.1 == "is_verified" then { v with is_verified := kv.2 }
      else v) u

/-- Tail of `UserProfileManager._create_user` (managers.py lines 47-74) after
the lookup decided which profile object to use: overwrite email, activate,
set `is_verified`, replace the credential, apply extra fields, save, link to
the public tenant, and force the staff/superuser flags onto the public-schema
permissions row when requested. -/
def UPM_finish (profile0 : UserRec) (email : String) (password : Option String)
    (is_staff is_superuser is_verified : Bool) (extra : List (String × Bool))
    (s : SysState) : Res UserRec :=
  let profile := { profile0 with
    email := email, is_active := true, is_verified := is_verified,
    cred := set_password password }
  let profile := applyExtra extra profile
  let s := saveUser profile s
  match getTenant s publicSchemaName with
  | none => .err .doesNotExist s
  | some public_tenant =>
    match add_user (objOf public_tenant) profile.pk false false s with
    | .err e s => .err e s
    | .ok _ s =>
      if is_staff || is_superuser then
        match permsGet profile.pk s with
        | none => .err .doesNotExist s
        | some q =>
          .ok profile (permsSet profile.pk
            { q with is_staff := is_staff, is_superuser := is_superuser } s)
      else .ok profile s

/-- `UserProfileManager._create_user` (managers.py lines 11-74): require the
public schema to be active (`SchemaError`), require a non-empty email
(`ValueError`), normalize the email, and either fail on an existing active
profile (`ExistsError`), reactivate an existing inactive profile (same primary
key), or create a fresh profile. -/
def UPM_create_user_inner (email : String) (password : Option String)
    (is_staff is_superuser is_verified : Bool) (extra : List (String × Bool))
    (s : SysState) : Res UserRec :=
  if s.schema_name ≠ publicSchemaName then .err .schemaError s
  else if email = "" then .err .valueError s
  else
    let email := normalize_email email
    match s.users.find? (fun u => u.email == email) with
    | some p =>
      if p.is_active then .err .existsError s
      else UPM_finish p email password is_staff is_superuser is_verified extra s
    | none =>
      UPM_finish ⟨s.nextPk, "", true, false, .unusable⟩
        email password is_staff is_superuser is_verified extra s

/-- `UserProfileManager.create_user` (managers.py lines 76-96): `_create_user`
with `is_superuser=False, is_verified=False`; afterwards an unusable password
is set on the *returned in-memory object only* when the password is falsy
(that late `set_unusable_password()` is never saved). -/
def UPM_create_user (email : String) (password : Option String) (is_staff : Bool)
    (extra : List (String × Bool)) (s : SysState) : Res UserRec :=
  match UPM_create_user_inner email password is_staff false false extra s with
  | .err e s => .err e s
  | .ok u s => .ok (if pwFalsy password then { u with cred := .unusable } else u) s

/-- `UserProfileManager.create_superuser` (managers.py lines 98-106):
`_create_user` with `is_staff=True, is_superuser=True, is_verified=True`. -/
def UPM_create_superuser (password : Option String) (email : String)
    (extra : List (String × Bool)) (s : SysState) : Res UserRec :=
  UPM_create_user_inner email password true true true extra s

/-- The `for tenant in user_obj.tenants.all()` loop of `delete_user`: delete
every tenant the user owns, remove the user from every other tenant. -/
def deleteLoop (user_pk : UserId) : List String → SysState → Res Unit
  | [], s => .ok () s
  | name :: rest, s =>
    match getTenant s name with
    | none => .err .doesNotExist s
    | some t =>
      if t.owner = user_pk then
        match delete_tenant (objOf t) s with
        | .ok _ s => deleteLoop user_pk rest s
        | .err e s => .err e s
      else
        match remove_user (objOf t) user_pk s with
        | .ok _ s => deleteLoop user_pk rest s
        | .err e s => .err e s

/-- `UserProfileManager.delete_user` (managers.py lines 108-134): refuse to
delete the public tenant's owner (`DeleteError`), resolve every membership by
deleting owned tenants and leaving the others, then soft-delete the profile by
clearing `is_active`. -/
def UPM_delete_user (user_obj : UserRec) (s : SysState) : Res Unit :=
  match getTenant s publicSchemaName with
  | none => .err .doesNotExist s
  | some public_tenant =>
    if user_obj.pk = public_tenant.owner then .err .deleteError s
    else
      let names := (s.tenants.filter (fun t => user_obj.pk ∈ t.members)).map
        (fun t => t.schema_name)
      match deleteLoop user_obj.pk names s with
      | .err e s => .err e s
      | .ok _ s =>
        let s := saveUser { user_obj with is_active := false } s
        .ok () s

/-- The keyword arguments accepted by `TenantUserManager.create_user`,
restricted to the fields of this model; `none` means the key is absent. -/
structure TUMFields where
  email : String
  password : Option String
  is_staff : Option Bool
  is_superuser : Option Bool
  is_active : Option Bool
deriving DecidableEq, Repr

/-- `django.db.transaction.atomic`: run the body in a transaction, rolling the
store back to the entry state when an exception escapes. -/
def atomic (body : SysState → Res α) (s : SysState) : Res α :=
  match body s with
  | .ok a s' => .ok a s'
  | .err e _ => .err e s

/-- `TenantUserManager.create_user` (managers.py lines 145-190),
`@transaction.atomic`: pop password/is_staff/is_superuser (defaulting the
flags to `False`), insert the row, set the credential (unusable when the
password is falsy), save, and link the user to the public tenant with the
popped flags. -/
def TUM_create_user (fields : TUMFields) (s : SysState) : Res UserRec :=
  atomic (fun s =>
    let password := fields.password
    let is_staff := fields.is_staff.getD false
    let is_superuser := fields.is_superuser.getD false
    let user0 : UserRec :=
      ⟨s.nextPk, fields.email, fields.is_active.getD true, false, .unusable⟩
    let s := saveUser user0 s
    let cred := if pwFalsy password then Cred.unusable else set_password password
    let user := { user0 with cred := cred, is_active := fields.is_active.getD true }
    let s := saveUser user s
    match getTenant s publicSchemaName with
    | none => .err .doesNotExist s
    | some public_tenant =>
      match add_user (objOf public_tenant) user.pk is_superuser is_staff s with
      | .err e s => .err e s
      | .ok _ s => .ok user s) s

/-- `TenantUserManager.create_superuser` (managers.py lines 192-210):
`setdefault` the `is_staff` and `is_superuser` keys to `True` — caller-supplied
values are kept — and delegate to `create_user`; `is_verified` is never set. -/
def TUM_create_superuser (fields : TUMFields) (s : SysState) : Res UserRec :=
  TUM_create_user { fields with
    is_staff := some (fields.is_staff.getD true),
    is_superuser := some (fields.is_superuser.getD true) } s

/-! ## The membership/permission invariant (spec 3, spec 8) -/

/-- The user keys of the permissions rows of a tenant's schema. -/
def pkList (t : Tenant) : List UserId := t.perms.map Prod.fst

/-- Number of `UserTenantPermissions` rows for a user in a tenant's schema. -/
def permCount (t : Tenant) (u : UserId) : Nat := (pkList t).count u

/-- Per-tenant invariant: the owner is a member, member and permission-key
lists are duplicate-free, and a permissions row exists exactly for the
members. -/
def TenantInv (t : Tenant) : Prop :=
  t.owner ∈ t.members ∧ t.members.Nodup ∧ (pkList t).Nodup ∧
  (∀ u ∈ t.members, u ∈ pkList t) ∧ (∀ u ∈ pkList t, u ∈ t.members)

instance (t : Tenant) : Decidable (TenantInv t) := by
  unfold TenantInv; infer_instance

/-- Global invariant: every tenant satisfies `TenantInv`, schema names are
unique, and the public tenant exists. -/
def Inv (s : SysState) : Prop :=
  (∀ t ∈ s.tenants, TenantInv t) ∧
  (s.tenants.map (fun t => t.schema_name)).Nodup ∧
  (∃ t ∈ s.tenants, t.schema_name = publicSchemaName)

instance (s : SysState) : Decidable (Inv s) := by
  unfold Inv; infer_instance

/-- Is `u` a membership-linked user of the tenant row named `name`? -/
def memberIn (s : SysState) (name : String) (u : UserId) : Bool :=
  ((getTenant s name).map (fun t => decide (u ∈ t.members))).getD false

/-- The persisted `is_superuser` flag of `u`'s permissions row in the schema
of the tenant named `name`. -/
def permSuIn (s : SysState) (name : String) (u : UserId) : Option Bool :=
  (permsGet u (setSchema name s)).map (fun p => p.is_superuser)

/-! ## Concrete fixture states used by witnesses and counterexamples -/

/-- An owner-style permissions row: staff and superuser, no groups. -/
def exPermOwner : Perm := ⟨true, true, []⟩

/-- An owner-style permissions row that also has a group role. -/
def exPermGroups : Perm := ⟨true, true, [5]⟩

/-- A plain member permissions row. -/
def exPermMember : Perm := ⟨false, false, []⟩

/-- The public tenant: owner 9, sole member 9. -/
def exPublic : Tenant := ⟨"public", "example.com", 9, [9], [(9, exPermOwner)]⟩

/-- Tenant `t1` owned by user 1 who holds a group role, with plain member 2. -/
def exT1Groups : Tenant := ⟨"t1", "t1.com", 1, [1, 2], [(1, exPermGroups), (2, exPermMember)]⟩

/-- Tenant `t1` owned by user 1 with no group roles, with plain member 2. -/
def exT1NoGroups : Tenant := ⟨"t1", "t1.com", 1, [1, 2], [(1, exPermOwner), (2, exPermMember)]⟩

/-- User rows matching the fixture tenants. -/
def exUsers : List UserRec :=
  [⟨9, "o@x.com", true, true, .unusable⟩,
   ⟨1, "b@x.com", true, false, .unusable⟩,
   ⟨2, "c@x.com", true, false, .unusable⟩]

/-- Fixture store: public tenant plus `t1` whose owner holds a group role. -/
def exStateGroups : SysState := ⟨exUsers, [exPublic, exT1Groups], "public", 10, 100⟩

/-- Fixture store: public tenant plus `t1` whose owner holds no group role. -/
def exStateNoGroups : SysState := ⟨exUsers, [exPublic, exT1NoGroups], "public", 10, 100⟩

/-- Fixture store for reactivation: the public tenant plus a soft-deleted
(inactive) user 3 whose email matches a later `create_user` call. -/
def exStateReact : SysState :=
  ⟨[⟨9, "o@x.com", true, true, .unusable⟩, ⟨3, "a@x.com", false, true, .hashed "old"⟩],
   [exPublic], "public", 10, 100⟩

/-- The seven caller-facing operations of the spec (section 6), mapped to
their implementations: `UserProfileManager.create_user` /
`create_superuser` / `delete_user` and the four `TenantBase` methods. -/
inductive Op where
  | createUser (email : String) (password : Option String) (is_staff : Bool)
      (extra : List (String × Bool))
  | createSuperuser (password : Option String) (email : String)
      (extra : List (String × Bool))
  | deleteUser (u : UserRec)
  | addUser (t : TenantObj) (u : UserId) (is_superuser is_staff : Bool)
  | removeUser (t : TenantObj) (u : UserId)
  | transferOwnership (t : TenantObj) (u : UserId)
  | deleteTenant (t : TenantObj)

/-- Run an operation, discarding its return value. -/
def runOp : Op → SysState → Res Unit
  | .createUser e pw st extra, s =>
    match UPM_create_user e pw st extra s with
    | .ok _ s' => .ok () s'
    | .err er s' => .err er s'
  | .createSuperuser pw e extra, s =>
    match UPM_create_superuser pw e extra s with
    | .ok _ s' => .ok () s'
    | .err er s' => .err er s'
  | .deleteUser u, s => UPM_delete_user u s
  | .addUser t u su st, s => add_user t u su st s
  | .removeUser t u, s => remove_user t u s
  | .transferOwnership t u, s =>
    match transfer_ownership t u s with
    | .ok _ s' => .ok () s'
    | .err er s' => .err er s'
  | .deleteTenant t, s =>
    match delete_tenant t s with
    | .ok _ s' => .ok () s'
    | .err er s' => .err er s'

/-- Call-site well-formedness for the tenant methods: a Django method call
`tenant.add_user(...)` runs on a model instance freshly loaded from the
tenant table, so the in-memory instance fields agree with its row. -/
def opOK : Op → SysState → Prop
  | .addUser t _ _ _, s => ∃ row ∈ s.tenants, t = objOf row
  | .removeUser t _, s => ∃ row ∈ s.tenants, t = objOf row
  | .transferOwnership t _, s => ∃ row ∈ s.tenants, t = objOf row
  | .deleteTenant t, s => ∃ row ∈ s.tenants, t = objOf row
  | _, _ => True

/-- Relation between stores that differ only in the data of the tenant row
named `name`: the schema-name column is unchanged, every other row is
untouched, and a named row survives under its name. -/
def SameExcept (s s' : SysState) (name : String) : Prop :=
  s'.tenants.map (fun t => t.schema_name) = s.tenants.map (fun t => t.schema_name)
  ∧ (∀ n, n ≠ name → getTenant s' n = getTenant s n)
  ∧ (∀ r, getTenant s name = some r → ∃ r', getTenant s' name = some r'
      ∧ r'.schema_name = r.schema_name)

/-! ## Basic lemmas about the store primitives -/

theorem setSchema_setSchema (a b : String) (s : SysState) :
    setSchema a (setSchema b s) = setSchema a s := rfl

theorem setSchema_self (s : SysState) : setSchema s.schema_name s = s := rfl

theorem setSchema_schema_name (n : String) (s : SysState) :
    (setSchema n s).schema_name = n := rfl

theorem setSchema_tenants (n : String) (s : SysState) :
    (setSchema n s).tenants = s.tenants := rfl

theorem setSchema_users (n : String) (s : SysState) :
    (setSchema n s).users = s.users := rfl

theorem getTenant_setSchema (n name : String) (s : SysState) :
    getTenant (setSchema n s) name = getTenant s name := rfl

theorem updT_users (name : String) (f : Tenant → Tenant) (s : SysState) :
    (updT name f s).users = s.users := rfl

theorem updT_nextPk (name : String) (f : Tenant → Tenant) (s : SysState) :
    (updT name f s).nextPk = s.nextPk := rfl

theorem setSchema_nextPk (n : String) (s : SysState) :
    (setSchema n s).nextPk = s.nextPk := rfl

theorem updT_schema_name (name : String) (f : Tenant → Tenant) (s : SysState) :
    (updT name f s).schema_name = s.schema_name := rfl

theorem find?_map_upd {α : Type} (P : α → Bool) (f : α → α) (l : List α)
    (hf : ∀ a, P a = true → P (f a) = true) :
    (l.map (fun a => if P a then f a else a)).find? P = (l.find? P).map f := by
  induction l with
  | nil => rfl
  | cons a l ih =>
    simp only [List.map_cons]
    by_cases h : P a = true
    · rw [if_pos h, List.find?_cons_of_pos _ (hf a h), List.find?_cons_of_pos _ h]
      rfl
    · rw [if_neg h, List.find?_cons_of_neg _ h, List.find?_cons_of_neg _ h, ih]

theorem getTenant_updT_same (name : String) (f : Tenant → Tenant) (s : SysState)
    (hf : ∀ t, (f t).schema_name = t.schema_name) :
    getTenant (updT name f s) name = (getTenant s name).map f := by
  unfold getTenant updT
  exact find?_map_upd (fun t => t.schema_name == name) f s.tenants
    (fun t ht => by simp only [hf]; exact ht)

theorem find?_map_upd_other {α : Type} (P Q : α → Bool) (f : α → α) (l : List α)
    (hfQ : ∀ a, Q (f a) = Q a) :
    (l.map (fun a => if P a then f a else a)).find? Q
      = (l.find? Q).map (fun a => if P a then f a else a) := by
  induction l with
  | nil => rfl
  | cons a l ih =>
    simp only [List.map_cons]
    by_cases h : P a = true
    · rw [if_pos h]
      by_cases h2 : Q a = true
      · rw [List.find?_cons_of_pos _ ((hfQ a).trans h2), List.find?_cons_of_pos _ h2]
        simp [h]
      · rw [List.find?_cons_of_neg _ (fun hh => h2 ((hfQ a) ▸ hh)),
          List.find?_cons_of_neg _ h2, ih]
    · rw [if_neg h]
      by_cases h2 : Q a = true
      · rw [List.find?_cons_of_pos _ h2, List.find?_cons_of_pos _ h2]
        simp [h]
      · rw [List.find?_cons_of_neg _ h2, List.find?_cons_of_neg _ h2, ih]

theorem getTenant_updT_other (name name' : String) (f : Tenant → Tenant) (s : SysState)
    (hf : ∀ t, (f t).schema_name = t.schema_name) (hne : name' ≠ name) :
    getTenant (updT name f s) name' = getTenant s name' := by
  unfold getTenant updT
  rw [find?_map_upd_other (fun t => t.schema_name == name)
    (fun t => t.schema_name == name') f s.tenants (fun t => by simp [hf])]
  cases hfind : s.tenants.find? (fun t => t.schema_name == name') with
  | none => rfl
  | some t =>
    have ht : t.schema_name = name' := by
      have := List.find?_some hfind
      simpa using this
    have hno : ¬ ((t.schema_name == name) = true) := by
      simp only [ht, beq_iff_eq]
      exact hne
    show some (if (t.schema_name == name) = true then f t else t) = some t
    rw [if_neg hno]

theorem updT_updT (name : String) (f g : Tenant → Tenant) (s : SysState)
    (hg : ∀ t, (g t).schema_name = t.schema_name) :
    updT name f (updT name g s) = updT name (fun t => f (g t)) s := by
  unfold updT
  simp only [List.map_map]
  congr 1
  apply List.map_congr_left
  intro t _
  by_cases h : (t.schema_name == name) = true
  · have ht : t.schema_name = name := by simpa using h
    simp [Function.comp, h, hg, ht]
  · simp [Function.comp, h]

theorem updT_eq_self (name : String) (f : Tenant → Tenant) (s : SysState)
    (h : ∀ t ∈ s.tenants, t.schema_name = name → f t = t) : updT name f s = s := by
  unfold updT
  have hmap : s.tenants.map (fun t => if t.schema_name == name then f t else t)
      = s.tenants := by
    conv_rhs => rw [← List.map_id s.tenants]
    apply List.map_congr_left
    intro t ht
    by_cases hn : (t.schema_name == name) = true
    · simp [hn, h t ht (by simpa using hn)]
    · simp [hn]
  rw [hmap]

theorem updT_setSchema (name n : String) (f : Tenant → Tenant) (s : SysState) :
    updT name f (setSchema n s) = setSchema n (updT name f s) := rfl

theorem updT_tenants (name : String) (f : Tenant → Tenant) (s : SysState) :
    (updT name f s).tenants
      = s.tenants.map (fun t => if t.schema_name == name then f t else t) := rfl

theorem saveUser_tenants (u : UserRec) (s : SysState) :
    (saveUser u s).tenants = s.tenants := by
  unfold saveUser
  split <;> rfl

theorem saveUser_schema_name (u : UserRec) (s : SysState) :
    (saveUser u s).schema_name = s.schema_name := by
  unfold saveUser
  split <;> rfl

theorem getTenant_saveUser (u : UserRec) (s : SysState) (name : String) :
    getTenant (saveUser u s) name = getTenant s name := by
  unfold getTenant
  rw [saveUser_tenants]

theorem applyExtra_no_flag_keys (extra : List (String × Bool)) (u : UserRec)
    (h1 : "is_active" ∉ extra.map Prod.fst)
    (h2 : "is_verified" ∉ extra.map Prod.fst) :
    applyExtra extra u = u := by
  induction extra generalizing u with
  | nil => rfl
  | cons kv rest ih =>
    have hk1 : ¬ (kv.1 == "is_active") = true := by
      simp only [beq_iff_eq]
      intro hh
      exact h1 (by simp [hh])
    have hk2 : ¬ (kv.1 == "is_verified") = true := by
      simp only [beq_iff_eq]
      intro hh
      exact h2 (by simp [hh])
    unfold applyExtra
    simp only [List.foldl_cons, if_neg hk1, if_neg hk2]
    exact ih _
      (fun hh => h1 (by simp only [List.map_cons]; exact List.mem_cons_of_mem _ hh))
      (fun hh => h2 (by simp only [List.map_cons]; exact List.mem_cons_of_mem _ hh))

/-! ## Generic invariant lemmas -/

theorem Inv_setSchema (n : String) (s : SysState) : Inv (setSchema n s) ↔ Inv s :=
  Iff.rfl

theorem Inv_saveUser (u : UserRec) (s : SysState) : Inv (saveUser u s) ↔ Inv s := by
  unfold Inv
  rw [saveUser_tenants]

theorem map_schema_updT (name : String) (f : Tenant → Tenant) (s : SysState)
    (hf : ∀ t, (f t).schema_name = t.schema_name) :
    (updT name f s).tenants.map (fun t => t.schema_name)
      = s.tenants.map (fun t => t.schema_name) := by
  rw [updT_tenants, List.map_map]
  apply List.map_congr_left
  intro t _
  simp only [Function.comp]
  by_cases h : (t.schema_name == name) = true
  · rw [if_pos h]
    exact hf t
  · rw [if_neg h]

theorem getTenant_owner_updT (name : String) (f : Tenant → Tenant) (s : SysState)
    (hfn : ∀ t, (f t).schema_name = t.schema_name)
    (hfo : ∀ t, (f t).owner = t.owner) (n : String) :
    ((getTenant (updT name f s) n).map (fun t => t.owner))
      = (getTenant s n).map (fun t => t.owner) := by
  by_cases h : n = name
  · subst h
    rw [getTenant_updT_same _ _ _ hfn]
    cases getTenant s n <;> simp [hfo]
  · rw [getTenant_updT_other _ _ _ _ hfn h]

theorem Inv_updT (name : String) (f : Tenant → Tenant) (s : SysState)
    (hInv : Inv s)
    (hfn : ∀ t, (f t).schema_name = t.schema_name)
    (hfi : ∀ t ∈ s.tenants, t.schema_name = name → TenantInv t → TenantInv (f t)) :
    Inv (updT name f s) := by
  obtain ⟨hti, hnames, hpub⟩ := hInv
  refine ⟨?_, ?_, ?_⟩
  · intro t' ht'
    rw [updT_tenants] at ht'
    obtain ⟨t, ht, rfl⟩ := List.mem_map.mp ht'
    by_cases h : (t.schema_name == name) = true
    · rw [if_pos h]
      exact hfi t ht (by simpa using h) (hti t ht)
    · rw [if_neg h]
      exact hti t ht
  · rw [map_schema_updT name f s hfn]
    exact hnames
  · obtain ⟨t, ht, htn⟩ := hpub
    refine ⟨if (t.schema_name == name) = true then f t else t, ?_, ?_⟩
    · rw [updT_tenants]
      exact List.mem_map.mpr ⟨t, ht, rfl⟩
    · by_cases h : (t.schema_name == name) = true
      · rw [if_pos h, hfn]
        exact htn
      · rw [if_neg h]
        exact htn

theorem getTenant_of_mem (s : SysState) (row : Tenant)
    (hnames : (s.tenants.map (fun t => t.schema_name)).Nodup)
    (hrow : row ∈ s.tenants) :
    getTenant s row.schema_name = some row := by
  cases h : getTenant s row.schema_name with
  | none =>
    exact absurd (by simp : ((row.schema_name == row.schema_name) = true))
      (List.find?_eq_none.mp h row hrow)
  | some r =>
    have hr : r ∈ s.tenants := List.mem_of_find?_eq_some h
    have hrn : r.schema_name = row.schema_name := by simpa using List.find?_some h
    rw [List.inj_on_of_nodup_map hnames hr hrow hrn]

theorem map_fst_replace (l : List (UserId × Perm)) (u : UserId) (p : Perm) :
    (l.map (fun q => if q.1 == u then (u, p) else q)).map Prod.fst = l.map Prod.fst := by
  rw [List.map_map]
  apply List.map_congr_left
  intro q _
  simp only [Function.comp]
  by_cases h : (q.1 == u) = true
  · rw [if_pos h]
    have hq : q.1 = u := by simpa using h
    simp [hq]
  · rw [if_neg h]

theorem map_fst_filter_key (l : List (UserId × Perm)) (u : UserId) :
    (l.filter (fun q => q.1 != u)).map Prod.fst
      = (l.map Prod.fst).filter (fun k => k != u) := by
  induction l with
  | nil => rfl
  | cons q l ih =>
    simp only [List.filter_cons, List.map_cons]
    by_cases h : (q.1 != u) = true
    · simp only [h, if_pos rfl]
      simp [ih]
    · simp only [h]
      simp [ih, h]

theorem filter_key_after_replace (l : List (UserId × Perm)) (u : UserId) (p : Perm) :
    (l.map (fun q => if q.1 == u then (u, p) else q)).filter (fun q => q.1 != u)
      = l.filter (fun q => q.1 != u) := by
  induction l with
  | nil => rfl
  | cons q l ih =>
    simp only [List.map_cons]
    by_cases h : (q.1 == u) = true
    · have hq : q.1 = u := by simpa using h
      rw [if_pos h]
      simp only [List.filter_cons]
      rw [if_neg (by simp : ¬ ((((u, p) : UserId × Perm)).1 != u) = true),
        if_neg (by simp [hq] : ¬ ((q.1 != u) = true))]
      exact ih
    · have hb : (q.1 != u) = true := by simpa using h
      rw [if_neg h]
      simp only [List.filter_cons]
      rw [if_pos hb, if_pos hb, ih]

theorem TenantInv_replace (t : Tenant) (u : UserId) (p : Perm) (h : TenantInv t) :
    TenantInv { t with
      perms := t.perms.map (fun q => if q.1 == u then (u, p) else q) } := by
  obtain ⟨h1, h2, h3, h4, h5⟩ := h
  unfold TenantInv pkList at *
  refine ⟨h1, h2, ?_, ?_, ?_⟩
  · show ((t.perms.map (fun q => if q.1 == u then (u, p) else q)).map Prod.fst).Nodup
    rw [map_fst_replace]
    exact h3
  · intro v hv
    show v ∈ (t.perms.map (fun q => if q.1 == u then (u, p) else q)).map Prod.fst
    rw [map_fst_replace]
    exact h4 v hv
  · intro v hv
    rw [show ((({ t with perms := t.perms.map (fun q => if q.1 == u then (u, p) else q) } : Tenant)).perms.map Prod.fst) = t.perms.map Prod.fst from map_fst_replace t.perms u p] at hv
    exact h5 v hv

theorem permsSet_inv (u : UserId) (p : Perm) (s : SysState) (hInv : Inv s) :
    Inv (permsSet u p s) := by
  unfold permsSet
  exact Inv_updT _ _ _ hInv (fun t => rfl)
    (fun t _ _ ht => TenantInv_replace t u p ht)

/-! ## Success-shape lemmas for the tenant operations -/

theorem add_user_ok (self : TenantObj) (u : UserId) (su st : Bool) (s : SysState)
    (row : Tenant) (hrow : getTenant s self.schema_name = some row)
    (hmem : u ∉ row.members) :
    add_user self u su st s
      = .ok () (setSchema s.schema_name (m2mAdd self.schema_name u
          (permsCreate u ⟨st, su, []⟩ (setSchema self.schema_name s)))) := by
  unfold add_user schema_required
  simp only [getTenant_setSchema, hrow, if_neg hmem]

theorem remove_user_ok (self : TenantObj) (u : UserId) (s : SysState)
    (row : Tenant) (p : Perm)
    (hrow : getTenant s self.schema_name = some row)
    (hmem : u ∈ row.members) (hown : u ≠ self.owner)
    (hpg : permsGet u (setSchema self.schema_name s) = some p) :
    remove_user self u s
      = .ok () (setSchema s.schema_name (m2mRemove self.schema_name u
          (permsDelete u (permsSet u { p with groups := [] }
            (setSchema self.schema_name s))))) := by
  unfold remove_user schema_required
  simp only [getTenant_setSchema, hrow, hpg, if_neg (not_not_intro hmem), if_neg hown]

/-- Success shape of the tail of `_create_user` (`UPM_finish`): saving the
profile, linking it to the public tenant and forcing the staff/superuser
flags succeeds whenever the profile is not yet a member of (and has no
permissions row in) the public tenant, and the target permission flags are
exactly the requested ones. -/
theorem UPM_finish_ok (profile0 : UserRec) (E' : String) (pwd : Option String)
    (st su ver : Bool) (extra : List (String × Bool)) (s : SysState) (pub : Tenant)
    (hsch : s.schema_name = publicSchemaName)
    (hpub : getTenant s publicSchemaName = some pub)
    (hnames : (s.tenants.map (fun t => t.schema_name)).Nodup)
    (hnm : profile0.pk ∉ pub.members)
    (hnp : profile0.pk ∉ pkList pub)
    (hx1 : "is_active" ∉ extra.map Prod.fst)
    (hx2 : "is_verified" ∉ extra.map Prod.fst) :
    ∃ s', UPM_finish profile0 E' pwd st su ver extra s
        = .ok { profile0 with
            email := E'
            is_active := true
            is_verified := ver
            cred := set_password pwd } s'
      ∧ s'.users = (saveUser { profile0 with
            email := E'
            is_active := true
            is_verified := ver
            cred := set_password pwd } s).users
      ∧ s'.schema_name = s.schema_name
      ∧ s'.nextPk = (saveUser { profile0 with
            email := E'
            is_active := true
            is_verified := ver
            cred := set_password pwd } s).nextPk
      ∧ permsGet profile0.pk (setSchema publicSchemaName s') = some ⟨st, su, []⟩
      ∧ s'.tenants = (updT publicSchemaName
          (fun t => { t with
            members := t.members ++ [profile0.pk]
            perms := t.perms ++ [(profile0.pk, (⟨st, su, []⟩ : Perm))] }) s).tenants := by
  have hpubmem : pub ∈ s.tenants := List.mem_of_find?_eq_some hpub
  have hpubname : pub.schema_name = publicSchemaName := by
    simpa using List.find?_some hpub
  have hfA : ∀ t : Tenant,
      (({ t with perms := t.perms ++ [(profile0.pk,
        (⟨false, false, []⟩ : Perm))] } : Tenant)).schema_name = t.schema_name :=
    fun t => rfl
  have hfB : ∀ t : Tenant,
      ((if profile0.pk ∈ t.members then t
        else { t with members := t.members ++ [profile0.pk] } :
        Tenant)).schema_name = t.schema_name := by
    intro t
    split <;> rfl
  have hfind_none : pub.perms.find? (fun q => q.1 == profile0.pk) = none := by
    rw [List.find?_eq_none]
    intro q hq hqu
    exact hnp (List.mem_map.mpr ⟨q, hq, by simpa using hqu⟩)
  have hmap_id : ∀ P : Perm, List.map
      (fun q => if q.1 = profile0.pk then (profile0.pk, P) else q) pub.perms
      = pub.perms := by
    intro P
    conv_rhs => rw [← List.map_id pub.perms]
    apply List.map_congr_left
    intro q hq
    have hne : ¬ (q.1 = profile0.pk) := fun hqu =>
      hnp (List.mem_map.mpr ⟨q, hq, hqu⟩)
    rw [if_neg hne]
    rfl
  have hswap : getTenant (saveUser { profile0 with
      email := E'
      is_active := true
      is_verified := ver
      cred := set_password pwd } s) pub.schema_name = some pub := by
    rw [getTenant_saveUser, hpubname, hpub]
  have hadd := add_user_ok (objOf pub) profile0.pk false false
    (saveUser { profile0 with
      email := E'
      is_active := true
      is_verified := ver
      cred := set_password pwd } s) pub hswap hnm
  simp only [UPM_finish]
  rw [applyExtra_no_flag_keys _ _ hx1 hx2]
  rw [getTenant_saveUser, hpub]
  simp only []
  rw [hadd]
  simp only [objOf, setSchema_schema_name, saveUser_schema_name, hsch, hpubname]
  have hget2 : getTenant (setSchema publicSchemaName (m2mAdd publicSchemaName profile0.pk
      (permsCreate profile0.pk ⟨false, false, []⟩
        (setSchema publicSchemaName (saveUser { profile0 with
          email := E'
          is_active := true
          is_verified := ver
          cred := set_password pwd } s))))) publicSchemaName
      = some { pub with
          members := pub.members ++ [profile0.pk]
          perms := pub.perms ++ [(profile0.pk, ⟨false, false, []⟩)] } := by
    show getTenant (m2mAdd publicSchemaName profile0.pk
      (permsCreate profile0.pk ⟨false, false, []⟩
        (setSchema publicSchemaName (saveUser _ s)))) publicSchemaName = _
    unfold m2mAdd permsCreate
    simp only [setSchema_schema_name]
    rw [getTenant_updT_same _ _ _ hfB, getTenant_updT_same _ _ _ hfA,
      getTenant_setSchema, getTenant_saveUser, hpub]
    simp [hnm]
  by_cases hb : (st || su) = true
  · rw [if_pos hb]
    have hpg2 : permsGet profile0.pk (setSchema publicSchemaName
        (m2mAdd publicSchemaName profile0.pk
          (permsCreate profile0.pk ⟨false, false, []⟩
            (setSchema publicSchemaName (saveUser { profile0 with
              email := E'
              is_active := true
              is_verified := ver
              cred := set_password pwd } s)))))
        = some ⟨false, false, []⟩ := by
      unfold permsGet
      simp only [setSchema_schema_name]
      rw [hget2]
      simp [List.find?_append, hfind_none]
    rw [hpg2]
    simp only []
    refine ⟨_, rfl, rfl, rfl, rfl, ?_, ?_⟩
    · have hfP : ∀ (P : Perm) (t : Tenant),
          (({ t with perms := List.map (fun q => if q.1 == profile0.pk then (profile0.pk, P) else q) t.perms } : Tenant)).schema_name = t.schema_name := fun P t => rfl
      unfold permsGet permsSet
      simp only [setSchema_schema_name]
      rw [getTenant_setSchema]
      rw [getTenant_updT_same _ _ _ (hfP _), hget2]
      simp [List.map_append, List.find?_append, hfind_none, hmap_id]
    · simp only [permsSet, m2mAdd, permsCreate, updT_tenants, setSchema_tenants,
        setSchema_schema_name, saveUser_tenants]
      simp only [List.map_map]
      apply List.map_congr_left
      intro t ht
      simp only [Function.comp]
      by_cases hT : (t.schema_name == publicSchemaName) = true
      · have hT2 : t.schema_name = publicSchemaName := by simpa using hT
        have ht_eq : t = pub := List.inj_on_of_nodup_map hnames ht hpubmem
          (hT2.trans hpubname.symm)
        subst ht_eq
        simp [hT2, hnm, hmap_id, List.map_append]
      · simp [hT]
  · rw [if_neg hb]
    have hst : st = false := by revert hb; cases st <;> simp
    have hsu2 : su = false := by revert hb; cases su <;> simp
    subst hst
    subst hsu2
    refine ⟨_, rfl, rfl, rfl, rfl, ?_, ?_⟩
    · unfold permsGet
      simp only [setSchema_schema_name]
      rw [getTenant_setSchema, hget2]
      simp [List.find?_append, hfind_none]
    · simp only [m2mAdd, permsCreate, updT_tenants, setSchema_tenants,
        setSchema_schema_name, saveUser_tenants]
      simp only [List.map_map]
      apply List.map_congr_left
      intro t ht
      simp only [Function.comp]
      by_cases hT : (t.schema_name == publicSchemaName) = true
      · have hT2 : t.schema_name = publicSchemaName := by simpa using hT
        have ht_eq : t = pub := List.inj_on_of_nodup_map hnames ht hpubmem
          (hT2.trans hpubname.symm)
        subst ht_eq
        simp [hT2, hnm]
      · simp [hT]

theorem SameExcept_refl (s : SysState) (name : String) : SameExcept s s name :=
  ⟨rfl, fun _ _ => rfl, fun r hr => ⟨r, hr, rfl⟩⟩

theorem SameExcept_trans {s1 s2 s3 : SysState} {name : String}
    (h12 : SameExcept s1 s2 name) (h23 : SameExcept s2 s3 name) :
    SameExcept s1 s3 name := by
  obtain ⟨ha, hb, hc⟩ := h12
  obtain ⟨ha', hb', hc'⟩ := h23
  refine ⟨ha'.trans ha, fun n hn => (hb' n hn).trans (hb n hn), ?_⟩
  intro r hr
  obtain ⟨r2, hr2, hn2⟩ := hc r hr
  obtain ⟨r3, hr3, hn3⟩ := hc' r2 hr2
  exact ⟨r3, hr3, hn3.trans hn2⟩

theorem SameExcept_updT (s : SysState) (name : String) (f : Tenant → Tenant)
    (hf : ∀ t, (f t).schema_name = t.schema_name) :
    SameExcept s (updT name f s) name := by
  refine ⟨map_schema_updT _ _ _ hf, ?_, ?_⟩
  · intro n hn
    exact getTenant_updT_other _ _ _ _ hf hn
  · intro r hr
    refine ⟨f r, ?_, hf r⟩
    rw [getTenant_updT_same _ _ _ hf, hr]
    rfl

theorem SameExcept_setSchema (s : SysState) (n name : String) :
    SameExcept s (setSchema n s) name :=
  ⟨rfl, fun _ _ => rfl, fun r hr => ⟨r, hr, rfl⟩⟩

theorem SameExcept_setSchema_left {s s' : SysState} {name : String} (n : String)
    (h : SameExcept s s' name) : SameExcept s (setSchema n s') name :=
  SameExcept_trans h (SameExcept_setSchema s' n name)

theorem Inv_of_SameExcept (s s' : SysState) (name : String)
    (hInv : Inv s) (hse : SameExcept s s' name)
    (hrow : ∀ r', getTenant s' name = some r' → TenantInv r') :
    Inv s' := by
  obtain ⟨hti, hnames, hpub⟩ := hInv
  obtain ⟨ha, hb, hc⟩ := hse
  have hnames' : (s'.tenants.map (fun t => t.schema_name)).Nodup := by
    rw [ha]
    exact hnames
  refine ⟨?_, hnames', ?_⟩
  · intro t ht
    have hgt : getTenant s' t.schema_name = some t := getTenant_of_mem s' t hnames' ht
    by_cases hn : t.schema_name = name
    · exact hrow t (hn ▸ hgt)
    · rw [hb _ hn] at hgt
      exact hti t (List.mem_of_find?_eq_some hgt)
  · obtain ⟨pub, hpubmem, hpubname⟩ := hpub
    by_cases hn : publicSchemaName = name
    · have hg : getTenant s name = some pub := by
        rw [← hn, ← hpubname]
        exact getTenant_of_mem s pub hnames hpubmem
      obtain ⟨r', hr', hrn⟩ := hc pub hg
      exact ⟨r', List.mem_of_find?_eq_some hr', by rw [hrn, hpubname]⟩
    · have hg : getTenant s publicSchemaName = some pub := by
        rw [← hpubname]
        exact getTenant_of_mem s pub hnames hpubmem
      have hg' : getTenant s' publicSchemaName = some pub := by
        rw [hb _ hn]
        exact hg
      exact ⟨pub, List.mem_of_find?_eq_some hg', hpubname⟩

/-! ## Per-operation invariant preservation -/

theorem add_user_inv (self : TenantObj) (u : UserId) (su st : Bool) (s s' : SysState)
    (hInv : Inv s) (h : add_user self u su st s = .ok () s') :
    Inv s'
      ∧ s'.tenants.map (fun t => t.schema_name) = s.tenants.map (fun t => t.schema_name)
      ∧ ∀ n, (getTenant s' n).map (fun t => t.owner)
          = (getTenant s n).map (fun t => t.owner) := by
  have hfA : ∀ t : Tenant,
      (({ t with perms := t.perms ++ [(u, (⟨st, su, []⟩ : Perm))] } : Tenant)).schema_name
        = t.schema_name := fun t => rfl
  cases hg : getTenant s self.schema_name with
  | none =>
    simp only [add_user, schema_required] at h
    rw [getTenant_setSchema, hg] at h
    simp at h
  | some row =>
    simp only [add_user, schema_required] at h
    rw [getTenant_setSchema, hg] at h
    simp only [] at h
    by_cases hm : u ∈ row.members
    · rw [if_pos hm] at h
      simp at h
    · rw [if_neg hm] at h
      simp only [Res.ok.injEq] at h
      obtain ⟨-, hs'⟩ := h
      subst hs'
      have hrowmem : row ∈ s.tenants := List.mem_of_find?_eq_some hg
      have hrname : row.schema_name = self.schema_name := by
        simpa using List.find?_some hg
      have hnames := hInv.2.1
      -- collapse the two row updates into one
      have hS : m2mAdd self.schema_name u
          (permsCreate u ⟨st, su, []⟩ (setSchema self.schema_name s))
          = setSchema self.schema_name (updT self.schema_name
            (fun t => if u ∈ ({ t with perms := t.perms ++ [(u, (⟨st, su, []⟩ : Perm))] } : Tenant).members
              then ({ t with perms := t.perms ++ [(u, (⟨st, su, []⟩ : Perm))] } : Tenant)
              else { ({ t with perms := t.perms ++ [(u, (⟨st, su, []⟩ : Perm))] } : Tenant) with
                members := ({ t with perms := t.perms ++ [(u, (⟨st, su, []⟩ : Perm))] } : Tenant).members ++ [u] }) s) := by
        unfold m2mAdd permsCreate
        simp only [setSchema_schema_name, updT_setSchema]
        rw [updT_updT _ _ _ _ hfA]
      rw [hS]
      have hcomp_name : ∀ t : Tenant,
          ((if u ∈ ({ t with perms := t.perms ++ [(u, (⟨st, su, []⟩ : Perm))] } : Tenant).members
            then ({ t with perms := t.perms ++ [(u, (⟨st, su, []⟩ : Perm))] } : Tenant)
            else { ({ t with perms := t.perms ++ [(u, (⟨st, su, []⟩ : Perm))] } : Tenant) with
              members := ({ t with perms := t.perms ++ [(u, (⟨st, su, []⟩ : Perm))] } : Tenant).members ++ [u] } : Tenant)).schema_name = t.schema_name := by
        intro t
        split <;> rfl
      have hcomp_owner : ∀ t : Tenant,
          ((if u ∈ ({ t with perms := t.perms ++ [(u, (⟨st, su, []⟩ : Perm))] } : Tenant).members
            then ({ t with perms := t.perms ++ [(u, (⟨st, su, []⟩ : Perm))] } : Tenant)
            else { ({ t with perms := t.perms ++ [(u, (⟨st, su, []⟩ : Perm))] } : Tenant) with
              members := ({ t with perms := t.perms ++ [(u, (⟨st, su, []⟩ : Perm))] } : Tenant).members ++ [u] } : Tenant)).owner = t.owner := by
        intro t
        split <;> rfl
      refine ⟨?_, ?_, ?_⟩
      · rw [Inv_setSchema, Inv_setSchema]
        apply Inv_updT _ _ _ hInv hcomp_name
        intro t ht htname hti
        have ht_eq : t = row := List.inj_on_of_nodup_map hnames ht hrowmem
          (htname.trans hrname.symm)
        subst ht_eq
        rw [if_neg hm]
        obtain ⟨h1, h2, h3, h4, h5⟩ := hti
        unfold TenantInv pkList at *
        have hup : u ∉ t.perms.map Prod.fst := fun hu => hm (h5 u hu)
        refine ⟨List.mem_append_left _ h1, ?_, ?_, ?_, ?_⟩
        · rw [List.nodup_append]
          exact ⟨h2, List.nodup_singleton u, by
            intro a ha hb
            simp only [List.mem_singleton] at hb
            subst hb
            exact hm ha⟩
        · show ((t.perms ++ [(u, (⟨st, su, []⟩ : Perm))]).map Prod.fst).Nodup
          rw [List.map_append, List.nodup_append]
          refine ⟨h3, by simp, ?_⟩
          intro a ha hb
          simp only [List.map_cons, List.map_nil, List.mem_singleton] at hb
          subst hb
          exact hup ha
        · intro v hv
          show v ∈ (t.perms ++ [(u, (⟨st, su, []⟩ : Perm))]).map Prod.fst
          rw [List.map_append]
          rcases List.mem_append.mp hv with hv1 | hv2
          · exact List.mem_append_left _ (h4 v hv1)
          · simp only [List.mem_singleton] at hv2
            subst hv2
            simp
        · intro v hv
          show v ∈ t.members ++ [u]
          rw [show (({ t with members := t.members ++ [u], perms := t.perms ++ [(u, (⟨st, su, []⟩ : Perm))] } : Tenant)).perms = t.perms ++ [(u, (⟨st, su, []⟩ : Perm))] from rfl] at hv
          rw [List.map_append] at hv
          rcases List.mem_append.mp hv with hv1 | hv2
          · exact List.mem_append_left _ (h5 v hv1)
          · simp only [List.map_cons, List.map_nil, List.mem_singleton] at hv2
            subst hv2
            simp
      · show (updT self.schema_name _ s).tenants.map (fun t => t.schema_name)
          = s.tenants.map (fun t => t.schema_name)
        exact map_schema_updT _ _ _ hcomp_name
      · intro n
        show (getTenant (updT self.schema_name _ s) n).map (fun t => t.owner)
          = (getTenant s n).map (fun t => t.owner)
        exact getTenant_owner_updT _ _ _ hcomp_name hcomp_owner n


theorem remove_user_inv (self : TenantObj) (u : UserId) (s s' : SysState)
    (hInv : Inv s)
    (hcons : ∀ row, getTenant s self.schema_name = some row → self.owner = row.owner)
    (h : remove_user self u s = .ok () s') :
    Inv s'
      ∧ s'.tenants.map (fun t => t.schema_name) = s.tenants.map (fun t => t.schema_name)
      ∧ ∀ n, (getTenant s' n).map (fun t => t.owner)
          = (getTenant s n).map (fun t => t.owner) := by
  cases hg : getTenant s self.schema_name with
  | none =>
    simp only [remove_user, schema_required] at h
    rw [getTenant_setSchema, hg] at h
    simp at h
  | some row =>
    simp only [remove_user, schema_required] at h
    rw [getTenant_setSchema, hg] at h
    simp only [] at h
    by_cases hm : u ∈ row.members
    · rw [if_neg (not_not_intro hm)] at h
      by_cases ho : u = self.owner
      · rw [if_pos ho] at h
        simp at h
      · rw [if_neg ho] at h
        cases hpg : permsGet u (setSchema self.schema_name s) with
        | none =>
          rw [hpg] at h
          simp at h
        | some p =>
          rw [hpg] at h
          simp only [Res.ok.injEq] at h
          obtain ⟨-, hs2⟩ := h
          subst hs2
          have hrowmem : row ∈ s.tenants := List.mem_of_find?_eq_some hg
          have hrname : row.schema_name = self.schema_name := by
            simpa using List.find?_some hg
          have hnames := hInv.2.1
          have howner : self.owner = row.owner := hcons row hg
          -- collapse the three row updates into one
          have hS : m2mRemove self.schema_name u (permsDelete u
              (permsSet u { p with groups := [] } (setSchema self.schema_name s)))
              = setSchema self.schema_name (updT self.schema_name
                (fun t => { t with
                  members := List.filter (fun v => v != u) t.members
                  perms := List.filter (fun q => q.1 != u)
                    (List.map (fun q => if q.1 == u then (u, { p with groups := [] }) else q) t.perms) }) s) := by
            unfold m2mRemove permsDelete permsSet
            simp only [setSchema_schema_name, updT_setSchema, setSchema_setSchema]
            have hg1 : ∀ t : Tenant,
                (({ t with perms := List.map (fun q => if q.1 == u then (u, { p with groups := [] }) else q) t.perms } : Tenant)).schema_name = t.schema_name :=
              fun t => rfl
            have hg2 : ∀ t : Tenant,
                (({ t with perms := List.filter (fun q => q.1 != u) t.perms } : Tenant)).schema_name = t.schema_name :=
              fun t => rfl
            rw [updT_updT _ _ _ _ hg2]
            rw [updT_updT _ _ _ _ hg1]
          rw [hS]
          have hcomp_name : ∀ t : Tenant,
              (({ t with
                members := List.filter (fun v => v != u) t.members
                perms := List.filter (fun q => q.1 != u)
                  (List.map (fun q => if q.1 == u then (u, { p with groups := [] }) else q) t.perms) } : Tenant)).schema_name = t.schema_name :=
            fun t => rfl
          have hcomp_owner : ∀ t : Tenant,
              (({ t with
                members := List.filter (fun v => v != u) t.members
                perms := List.filter (fun q => q.1 != u)
                  (List.map (fun q => if q.1 == u then (u, { p with groups := [] }) else q) t.perms) } : Tenant)).owner = t.owner :=
            fun t => rfl
          refine ⟨?_, ?_, ?_⟩
          · rw [Inv_setSchema, Inv_setSchema]
            apply Inv_updT _ _ _ hInv hcomp_name
            intro t ht htname hti
            have ht_eq : t = row := List.inj_on_of_nodup_map hnames ht hrowmem
              (htname.trans hrname.symm)
            subst ht_eq
            obtain ⟨h1, h2, h3, h4, h5⟩ := hti
            unfold TenantInv pkList at *
            have hou : ¬ (t.owner = u) := fun hh => ho ((howner.trans hh).symm)
            refine ⟨?_, ?_, ?_, ?_, ?_⟩
            · show t.owner ∈ List.filter (fun v => v != u) t.members
              rw [List.mem_filter]
              exact ⟨h1, by simpa using hou⟩
            · exact h2.filter _
            · show ((List.filter (fun q => q.1 != u)
                (List.map (fun q => if q.1 == u then (u, { p with groups := [] }) else q) t.perms)).map Prod.fst).Nodup
              rw [filter_key_after_replace, map_fst_filter_key]
              exact h3.filter _
            · intro v hv
              show v ∈ (List.filter (fun q => q.1 != u)
                (List.map (fun q => if q.1 == u then (u, { p with groups := [] }) else q) t.perms)).map Prod.fst
              rw [filter_key_after_replace, map_fst_filter_key]
              rw [List.mem_filter] at hv ⊢
              exact ⟨h4 v hv.1, hv.2⟩
            · intro v hv
              show v ∈ List.filter (fun v => v != u) t.members
              rw [show (({ t with
                members := List.filter (fun v => v != u) t.members
                perms := List.filter (fun q => q.1 != u)
                  (List.map (fun q => if q.1 == u then (u, { p with groups := [] }) else q) t.perms) } : Tenant)).perms
                = List.filter (fun q => q.1 != u)
                  (List.map (fun q => if q.1 == u then (u, { p with groups := [] }) else q) t.perms) from rfl] at hv
              rw [filter_key_after_replace, map_fst_filter_key] at hv
              rw [List.mem_filter] at hv ⊢
              exact ⟨h5 v hv.1, hv.2⟩
          · show (updT self.schema_name _ s).tenants.map (fun t => t.schema_name)
              = s.tenants.map (fun t => t.schema_name)
            exact map_schema_updT _ _ _ hcomp_name
          · intro n
            show (getTenant (updT self.schema_name _ s) n).map (fun t => t.owner)
              = (getTenant s n).map (fun t => t.owner)
            exact getTenant_owner_updT _ _ _ hcomp_name hcomp_owner n
    · rw [if_pos hm] at h
      simp at h

/-! ## C7: the namespace-restoration contract of `schema_required` -/

/-- C7: `schema_required ns body` restores the previously active schema on
every exit path: the state it leaves behind carries the schema name that was
active before the call, whether the body returned or raised; the body itself
runs on the state with `ns` active; and a nested wrapped call performed while
an enclosing wrapper holds schema `ns` active restores to `ns` (the
immediately enclosing schema), not to the original one. -/
theorem schema_required_restores_schema {α β : Type} (ns : String)
    (body : SysState → Res α) (s : SysState) :
    (schema_required ns body s).stateOf.schema_name = s.schema_name ∧
    (∀ a s1, body (setSchema ns s) = .ok a s1 →
      schema_required ns body s = .ok a (setSchema s.schema_name s1)) ∧
    (∀ e s1, body (setSchema ns s) = .err e s1 →
      schema_required ns body s = .err e (setSchema s.schema_name s1)) ∧
    (∀ ns2 (body2 : SysState → Res β) s2, s2.schema_name = ns →
      (schema_required ns2 body2 s2).stateOf.schema_name = ns) := by
  refine ⟨?_, ?_, ?_, ?_⟩
  · unfold schema_required
    cases h : body (setSchema ns s) <;> simp [Res.stateOf, setSchema]
  · intro a s1 h
    unfold schema_required
    rw [h]
  · intro e s1 h
    unfold schema_required
    rw [h]
  · intro ns2 body2 s2 h2
    unfold schema_required
    cases h : body2 (setSchema ns2 s2) <;> simp [Res.stateOf, setSchema, h2]

/-- Witness for C7 at a concrete schema, body and state. -/
theorem schema_required_restores_schema_witness :
    (schema_required "t1" (fun s => Res.ok () s) exStateGroups).stateOf.schema_name
      = "public" :=
  (schema_required_restores_schema (β := Unit) "t1" (fun s => Res.ok () s) exStateGroups).1

/-! ## C6: deleting the public tenant -/

/-- C6: `delete_tenant` invoked on the public tenant always raises
`ValueError` (the spec's ValidationError) before any mutation: the state it
leaves behind is exactly the input state. -/
theorem delete_tenant_public_fails (self : TenantObj) (s : SysState)
    (h : self.schema_name = publicSchemaName) :
    delete_tenant self s = .err .valueError s := by
  unfold delete_tenant
  simp [h]

/-- Witness for C6: deleting the fixture public tenant. -/
theorem delete_tenant_public_fails_witness :
    delete_tenant (objOf exPublic) exStateGroups = .err .valueError exStateGroups :=
  delete_tenant_public_fails (objOf exPublic) exStateGroups rfl

/-! ## C5: deleting the public tenant's owner -/

/-- C5: `delete_user` on the public tenant's owner always raises
`DeleteError`, and the whole store (user rows, memberships, permissions,
ownership) is left exactly as before the call. -/
theorem delete_user_public_owner_fails (u : UserRec) (s : SysState) (pub : Tenant)
    (hpub : getTenant s publicSchemaName = some pub) (hown : u.pk = pub.owner) :
    UPM_delete_user u s = .err .deleteError s := by
  unfold UPM_delete_user
  rw [hpub]
  simp [hown]

/-- Witness for C5: deleting user 9, the fixture public tenant's owner. -/
theorem delete_user_public_owner_fails_witness :
    UPM_delete_user ⟨9, "o@x.com", true, true, .unusable⟩ exStateGroups
      = .err .deleteError exStateGroups :=
  delete_user_public_owner_fails _ _ exPublic (by decide) rfl

/-! ## C8: `add_user` / `remove_user` round trip -/

/-- C8: for a tenant row and a user `u` that is neither a member of the tenant
nor its (in-memory) owner, and has no permissions row in the tenant's schema
(as the invariant guarantees for non-members), `add_user` succeeds and a
subsequent `remove_user` succeeds and restores the store exactly to the
original state, in which `u` is not a member and no `TenantPermission` row for
`(u, tenant)` exists. -/
theorem add_then_remove_restores (self : TenantObj) (row : Tenant) (u : UserId)
    (su st : Bool) (s : SysState)
    (hrow : getTenant s self.schema_name = some row)
    (hnames : (s.tenants.map (fun t => t.schema_name)).Nodup)
    (hmem : u ∉ row.members) (hperm : u ∉ pkList row) (hown : u ≠ self.owner) :
    ∃ s1, add_user self u su st s = .ok () s1 ∧ remove_user self u s1 = .ok () s := by
  have hrowmem : row ∈ s.tenants := List.mem_of_find?_eq_some hrow
  have hrname : row.schema_name = self.schema_name := by
    simpa using List.find?_some hrow
  have hfA : ∀ t : Tenant,
      (({ t with perms := t.perms ++ [(u, (⟨st, su, []⟩ : Perm))] } : Tenant)).schema_name
        = t.schema_name := fun t => rfl
  have hfB : ∀ t : Tenant,
      ((if u ∈ t.members then t else { t with members := t.members ++ [u] } :
        Tenant)).schema_name = t.schema_name := by
    intro t
    split <;> rfl
  have hadd := add_user_ok self u su st s row hrow hmem
  refine ⟨_, hadd, ?_⟩
  have hget1 : getTenant (setSchema s.schema_name (m2mAdd self.schema_name u
      (permsCreate u ⟨st, su, []⟩ (setSchema self.schema_name s)))) self.schema_name
      = some { row with
          members := row.members ++ [u]
          perms := row.perms ++ [(u, ⟨st, su, []⟩)] } := by
    show getTenant (m2mAdd self.schema_name u
      (permsCreate u ⟨st, su, []⟩ (setSchema self.schema_name s))) self.schema_name = _
    unfold m2mAdd permsCreate
    simp only [setSchema_schema_name]
    rw [getTenant_updT_same _ _ _ hfB, getTenant_updT_same _ _ _ hfA,
      getTenant_setSchema, hrow]
    simp [hmem]
  have hfind_none : row.perms.find? (fun q => q.1 == u) = none := by
    rw [List.find?_eq_none]
    intro q hq hqu
    exact hperm (List.mem_map.mpr ⟨q, hq, by simpa using hqu⟩)
  have hpg1 : permsGet u (setSchema self.schema_name (setSchema s.schema_name
      (m2mAdd self.schema_name u
        (permsCreate u ⟨st, su, []⟩ (setSchema self.schema_name s)))))
      = some ⟨st, su, []⟩ := by
    unfold permsGet
    simp only [setSchema_schema_name]
    rw [getTenant_setSchema, hget1]
    simp [List.find?_append, hfind_none]
  have hmem1 : u ∈ ({ row with
      members := row.members ++ [u]
      perms := row.perms ++ [(u, (⟨st, su, []⟩ : Perm))] } : Tenant).members := by
    simp
  have hrem := remove_user_ok self u _ _ ⟨st, su, []⟩ hget1 hmem1 hown hpg1
  rw [show ({ (⟨st, su, []⟩ : Perm) with groups := [] } : Perm) = (⟨st, su, []⟩ : Perm)
    from rfl] at hrem
  rw [hrem]
  congr 1
  unfold m2mRemove permsDelete permsSet m2mAdd permsCreate
  simp only [setSchema_schema_name, updT_schema_name, updT_setSchema, setSchema_setSchema]
  have hgD : ∀ t : Tenant,
      (({ t with perms := t.perms.filter (fun q => q.1 != u) } : Tenant)).schema_name
        = t.schema_name := fun t => rfl
  have hgC : ∀ t : Tenant,
      (({ t with perms := List.map (fun q => if q.1 == u then (u, (⟨st, su, []⟩ : Perm)) else q) t.perms } : Tenant)).schema_name = t.schema_name := fun t => rfl
  rw [updT_updT _ _ _ _ hgD]
  rw [updT_updT _ _ _ _ hgC]
  rw [updT_updT _ _ _ _ hfB]
  rw [updT_updT _ _ _ _ hfA]
  rw [updT_eq_self]
  · exact setSchema_self s
  · intro t ht htname
    have ht_eq : t = row := List.inj_on_of_nodup_map hnames ht hrowmem
      (htname.trans hrname.symm)
    subst ht_eq
    have hcomp : List.filter (fun q => q.1 != u)
        (List.map (fun q => if q.1 = u then (u, (⟨st, su, []⟩ : Perm)) else q) t.perms)
        = t.perms := by
      have hmap_id : List.map
          (fun q => if q.1 = u then (u, (⟨st, su, []⟩ : Perm)) else q) t.perms
          = t.perms := by
        conv_rhs => rw [← List.map_id t.perms]
        apply List.map_congr_left
        intro q hq
        have hne : ¬ (q.1 = u) := fun hqu =>
          hperm (List.mem_map.mpr ⟨q, hq, hqu⟩)
        rw [if_neg hne]
        rfl
      rw [hmap_id, List.filter_eq_self]
      intro q hq
      simp only [bne_iff_ne, ne_eq, decide_eq_true_eq]
      intro hqu
      exact hperm (List.mem_map.mpr ⟨q, hq, hqu⟩)
    have hfm : List.filter (fun v => v != u) t.members = t.members := by
      rw [List.filter_eq_self]
      intro v hv
      simp only [bne_iff_ne, ne_eq, decide_eq_true_eq]
      intro hvu
      exact hmem (hvu ▸ hv)
    simp [hmem, hcomp, hfm]

/-- Witness for C8: adding then removing user 7 on the fixture tenant `t1`. -/
theorem add_then_remove_restores_witness :
    ∃ s1, add_user (objOf exT1Groups) 7 false false exStateGroups = .ok () s1 ∧
      remove_user (objOf exT1Groups) 7 s1 = .ok () exStateGroups :=
  add_then_remove_restores (objOf exT1Groups) exT1Groups 7 false false exStateGroups
    (by decide) (by decide) (by decide) (by decide) (by decide)

/-! ## C4 and C10: `create_user` reactivation semantics -/

/-- Success shape of `create_user` on the reactivation path: an existing
profile with the normalized email and `is_active = False` is reused (same
primary key) with email, activity flag, verification flag and credential
overwritten and saved. -/
theorem create_user_reactivation_core (E : String) (pwd : Option String)
    (st : Bool) (extra : List (String × Bool)) (s : SysState) (p : UserRec) (pub : Tenant)
    (hsch : s.schema_name = publicSchemaName)
    (hE : ¬ (E = ""))
    (hfind : s.users.find? (fun u => u.email == normalize_email E) = some p)
    (hinact : p.is_active = false)
    (hpub : getTenant s publicSchemaName = some pub)
    (hnames : (s.tenants.map (fun t => t.schema_name)).Nodup)
    (hnm : p.pk ∉ pub.members) (hnp : p.pk ∉ pkList pub)
    (hx1 : "is_active" ∉ extra.map Prod.fst)
    (hx2 : "is_verified" ∉ extra.map Prod.fst) :
    ∃ s', UPM_create_user E pwd st extra s
        = .ok (if pwFalsy pwd
            then { p with
              email := normalize_email E
              is_active := true
              is_verified := false
              cred := .unusable }
            else { p with
              email := normalize_email E
              is_active := true
              is_verified := false
              cred := set_password pwd }) s'
      ∧ s'.users = (saveUser { p with
          email := normalize_email E
          is_active := true
          is_verified := false
          cred := set_password pwd } s).users := by
  obtain ⟨s', heq, husers, hscm, hnext, hperm, hten⟩ :=
    UPM_finish_ok p (normalize_email E) pwd st false false extra s pub
      hsch hpub hnames hnm hnp hx1 hx2
  refine ⟨s', ?_, husers⟩
  simp only [UPM_create_user, UPM_create_user_inner]
  rw [if_neg (not_not_intro hsch), if_neg hE, hfind]
  simp only []
  rw [if_neg (by rw [hinact]; exact Bool.false_ne_true), heq]

/-- C4: when an identity with the normalized email exists and is inactive,
`create_user` reactivates that same record: it succeeds, returns a user with
the same primary key and `is_active = true`, and creates no second row (the
primary-key column of the user table is unchanged); and whenever the existing
identity is active, `create_user` raises `ExistsError` before any mutation. -/
theorem create_user_reactivates_or_rejects (E : String) (pwd : Option String)
    (st : Bool) (extra : List (String × Bool)) (s : SysState) (p : UserRec) (pub : Tenant)
    (hsch : s.schema_name = publicSchemaName)
    (hE : ¬ (E = ""))
    (hfind : s.users.find? (fun u => u.email == normalize_email E) = some p)
    (hpub : getTenant s publicSchemaName = some pub)
    (hnames : (s.tenants.map (fun t => t.schema_name)).Nodup)
    (hnm : p.pk ∉ pub.members) (hnp : p.pk ∉ pkList pub)
    (hx1 : "is_active" ∉ extra.map Prod.fst)
    (hx2 : "is_verified" ∉ extra.map Prod.fst) :
    (p.is_active = false →
      ∃ u s', UPM_create_user E pwd st extra s = .ok u s'
        ∧ u.pk = p.pk ∧ u.is_active = true
        ∧ s'.users.map (fun v => v.pk) = s.users.map (fun v => v.pk))
    ∧ (p.is_active = true →
      UPM_create_user E pwd st extra s = .err .existsError s) := by
  constructor
  · intro hinact
    obtain ⟨s', heq, husers⟩ := create_user_reactivation_core E pwd st extra s p pub
      hsch hE hfind hinact hpub hnames hnm hnp hx1 hx2
    refine ⟨_, s', heq, ?_, ?_, ?_⟩
    · by_cases hpw : pwFalsy pwd = true
      · rw [if_pos hpw]
      · rw [if_neg hpw]
    · by_cases hpw : pwFalsy pwd = true
      · rw [if_pos hpw]
      · rw [if_neg hpw]
    · rw [husers]
      have hpmem : p ∈ s.users := List.mem_of_find?_eq_some hfind
      have hany : s.users.any (fun v => v.pk == p.pk) = true :=
        List.any_eq_true.mpr ⟨p, hpmem, by simp⟩
      unfold saveUser
      rw [if_pos hany]
      simp only [List.map_map]
      apply List.map_congr_left
      intro v hv
      simp only [Function.comp]
      by_cases hvp : (v.pk == p.pk) = true
      · rw [if_pos hvp]
        have : v.pk = p.pk := by simpa using hvp
        simp [this]
      · rw [if_neg hvp]
  · intro hact
    unfold UPM_create_user
    simp only [UPM_create_user_inner]
    rw [if_neg (not_not_intro hsch), if_neg hE, hfind]
    simp only []
    rw [if_pos hact]

/-- Witness for C4: reactivating soft-deleted user 3 by email. -/
theorem create_user_reactivates_or_rejects_witness :
    ∃ u s', UPM_create_user "a@x.com" (some "pw") false [] exStateReact = .ok u s'
      ∧ u.pk = (⟨3, "a@x.com", false, true, .hashed "old"⟩ : UserRec).pk
      ∧ u.is_active = true
      ∧ s'.users.map (fun v => v.pk) = exStateReact.users.map (fun v => v.pk) :=
  (create_user_reactivates_or_rejects "a@x.com" (some "pw") false [] exStateReact
    ⟨3, "a@x.com", false, true, .hashed "old"⟩ exPublic rfl (by decide) (by decide)
    (by decide) (by decide) (by decide) (by decide) (by decide) (by decide)).1 rfl

/-- C10: reactivating a soft-deleted identity unconditionally resets its
`is_verified` flag to `false` and replaces its stored password credential with
the credential derived from the new call's password, whatever the previous
values were: the saved row is exactly the reused record with those fields
overwritten. -/
theorem create_user_reactivation_resets_flags (E : String) (pwd : Option String)
    (st : Bool) (extra : List (String × Bool)) (s : SysState) (p : UserRec) (pub : Tenant)
    (hsch : s.schema_name = publicSchemaName)
    (hE : ¬ (E = ""))
    (hfind : s.users.find? (fun u => u.email == normalize_email E) = some p)
    (hinact : p.is_active = false)
    (hpub : getTenant s publicSchemaName = some pub)
    (hnames : (s.tenants.map (fun t => t.schema_name)).Nodup)
    (hnm : p.pk ∉ pub.members) (hnp : p.pk ∉ pkList pub)
    (hx1 : "is_active" ∉ extra.map Prod.fst)
    (hx2 : "is_verified" ∉ extra.map Prod.fst) :
    ∃ u s', UPM_create_user E pwd st extra s = .ok u s'
      ∧ s'.users.find? (fun v => v.pk == p.pk)
          = some { p with
              email := normalize_email E
              is_active := true
              is_verified := false
              cred := set_password pwd } := by
  obtain ⟨s', heq, husers⟩ := create_user_reactivation_core E pwd st extra s p pub
    hsch hE hfind hinact hpub hnames hnm hnp hx1 hx2
  refine ⟨_, s', heq, ?_⟩
  rw [husers]
  have hpmem : p ∈ s.users := List.mem_of_find?_eq_some hfind
  have hany : s.users.any (fun v => v.pk == p.pk) = true :=
    List.any_eq_true.mpr ⟨p, hpmem, by simp⟩
  unfold saveUser
  rw [if_pos hany]
  rw [find?_map_upd (fun v => v.pk == p.pk) _ s.users (fun a ha => by simp)]
  cases hf2 : s.users.find? (fun v => v.pk == p.pk) with
  | none =>
    exfalso
    exact absurd (by simp : ((p.pk == p.pk) = true))
      (List.find?_eq_none.mp hf2 p hpmem)
  | some q => rfl

/-- Witness for C10: the reactivated row of user 3 has `is_verified = false`
and the new credential although the old row was verified with an old hash. -/
theorem create_user_reactivation_resets_flags_witness :
    ∃ u s', UPM_create_user "a@x.com" (some "pw") false [] exStateReact = .ok u s'
      ∧ s'.users.find? (fun v => v.pk == 3)
          = some ⟨3, normalize_email "a@x.com", true, false, set_password (some "pw")⟩ :=
  create_user_reactivation_resets_flags "a@x.com" (some "pw") false [] exStateReact
    ⟨3, "a@x.com", false, true, .hashed "old"⟩ exPublic rfl (by decide) (by decide)
    rfl (by decide) (by decide) (by decide) (by decide) (by decide) (by decide)

/-! ## C9: `create_superuser` flag forcing -/

/-- C9 (counterexample): the claim that every `create_superuser` invocation
yields `is_staff = is_superuser = is_verified = true` regardless of
caller-supplied flags is false for `TenantUserManager.create_superuser`: a
default invocation leaves the created identity's `is_verified` at `false`
(the manager never sets it), and an invocation supplying
`is_superuser = False` keeps it `false` because `setdefault` only fills
absent keys. -/
theorem create_superuser_not_forced_counterexample :
    ((match TUM_create_superuser ⟨"n@x.com", some "pw", none, none, none⟩ exStateReact with
      | .ok u _ => some u.is_verified
      | .err _ _ => none) = some false)
    ∧ permSuIn (TUM_create_superuser ⟨"n@x.com", some "pw", none, some false, none⟩
        exStateReact).stateOf "public" 10 = some false := by
  decide

/-- C9 (amended): `UserProfileManager.create_superuser` does force
`is_staff = is_superuser = is_verified = true`: the created identity is
verified and its public-tenant permissions row has both flags set.
`TenantUserManager.create_superuser` only `setdefault`s `is_staff` and
`is_superuser` to `true` — caller-supplied values win — and never touches
`is_verified`, which keeps its model default `false`. -/
theorem create_superuser_flag_semantics :
    (∀ (pwd : Option String) (E : String) (extra : List (String × Bool))
        (s : SysState) (pub : Tenant),
      s.schema_name = publicSchemaName →
      ¬ (E = "") →
      s.users.find? (fun u => u.email == normalize_email E) = none →
      getTenant s publicSchemaName = some pub →
      (s.tenants.map (fun t => t.schema_name)).Nodup →
      s.nextPk ∉ pub.members →
      s.nextPk ∉ pkList pub →
      "is_active" ∉ extra.map Prod.fst →
      "is_verified" ∉ extra.map Prod.fst →
      ∃ u s', UPM_create_superuser pwd E extra s = .ok u s'
        ∧ u.is_verified = true
        ∧ permsGet u.pk (setSchema publicSchemaName s') = some ⟨true, true, []⟩)
    ∧ (∀ (fields : TUMFields) (s : SysState) (pub : Tenant),
      getTenant s publicSchemaName = some pub →
      s.nextPk ∉ pub.members →
      s.nextPk ∉ pkList pub →
      ∃ u s', TUM_create_superuser fields s = .ok u s'
        ∧ u.is_verified = false
        ∧ permsGet u.pk (setSchema publicSchemaName s')
            = some ⟨fields.is_staff.getD true, fields.is_superuser.getD true, []⟩) := by
  constructor
  · intro pwd E extra s pub hsch hE hfind hpub hnames hnm hnp hx1 hx2
    obtain ⟨s', heq, husers, hscm, hnext, hperm, hten⟩ :=
      UPM_finish_ok ⟨s.nextPk, "", true, false, .unusable⟩ (normalize_email E) pwd
        true true true extra s pub hsch hpub hnames hnm hnp hx1 hx2
    refine ⟨⟨s.nextPk, normalize_email E, true, true, set_password pwd⟩, s', ?_, rfl, hperm⟩
    unfold UPM_create_superuser
    simp only [UPM_create_user_inner]
    rw [if_neg (not_not_intro hsch), if_neg hE, hfind]
    simp only []
    rw [heq]
  · intro fields s pub hpub hnm hnp
    have hpubname : pub.schema_name = publicSchemaName := by
      simpa using List.find?_some hpub
    have hswap : getTenant (saveUser
        (⟨s.nextPk, fields.email, fields.is_active.getD true, false,
          if pwFalsy fields.password then Cred.unusable
          else set_password fields.password⟩ : UserRec)
        (saveUser ⟨s.nextPk, fields.email, fields.is_active.getD true, false, .unusable⟩ s))
        pub.schema_name = some pub := by
      rw [getTenant_saveUser, getTenant_saveUser, hpubname, hpub]
    have hadd := add_user_ok (objOf pub) s.nextPk
      (fields.is_superuser.getD true) (fields.is_staff.getD true) _ pub hswap hnm
    unfold TUM_create_superuser TUM_create_user atomic
    simp only []
    rw [getTenant_saveUser, getTenant_saveUser, hpub]
    simp only [Option.getD_some]
    rw [hadd]
    simp only []
    simp only [objOf, setSchema_schema_name, saveUser_schema_name, hpubname]
    refine ⟨_, _, rfl, rfl, ?_⟩
    have hfA2 : ∀ t : Tenant,
        (({ t with perms := t.perms ++ [(s.nextPk, (⟨fields.is_staff.getD true, fields.is_superuser.getD true, []⟩ : Perm))] } : Tenant)).schema_name = t.schema_name :=
      fun t => rfl
    have hfB2 : ∀ t : Tenant,
        ((if s.nextPk ∈ t.members then t
          else { t with members := t.members ++ [s.nextPk] } : Tenant)).schema_name
          = t.schema_name := by
      intro t
      split <;> rfl
    have hfind_none2 : pub.perms.find? (fun q => q.1 == s.nextPk) = none := by
      rw [List.find?_eq_none]
      intro q hq hqu
      exact hnp (List.mem_map.mpr ⟨q, hq, by simpa using hqu⟩)
    unfold permsGet
    simp only [setSchema_schema_name, getTenant_setSchema]
    unfold m2mAdd permsCreate
    simp only [setSchema_schema_name]
    rw [getTenant_updT_same _ _ _ hfB2, getTenant_updT_same _ _ _ hfA2,
      getTenant_setSchema, getTenant_saveUser, getTenant_saveUser, hpub]
    simp [hnm, List.find?_append, hfind_none2]

/-- Witness for the amended C9 at concrete inputs: a fresh superuser via
`UserProfileManager` is fully forced, while `TenantUserManager` with a
caller-supplied `is_staff=False` keeps that `False` and stays unverified. -/
theorem create_superuser_flag_semantics_witness :
    (∃ u s', UPM_create_superuser (some "pw") "n@x.com" [] exStateReact = .ok u s'
      ∧ u.is_verified = true
      ∧ permsGet u.pk (setSchema publicSchemaName s') = some ⟨true, true, []⟩)
    ∧ (∃ u s', TUM_create_superuser ⟨"m@x.com", some "pw", some false, none, none⟩
          exStateReact = .ok u s'
      ∧ u.is_verified = false
      ∧ permsGet u.pk (setSchema publicSchemaName s') = some ⟨false, true, []⟩) :=
  ⟨create_superuser_flag_semantics.1 (some "pw") "n@x.com" [] exStateReact exPublic
      rfl (by decide) (by decide) (by decide) (by decide) (by decide) (by decide)
      (by decide) (by decide),
   create_superuser_flag_semantics.2 ⟨"m@x.com", some "pw", some false, none, none⟩
      exStateReact exPublic (by decide) (by decide) (by decide)⟩

/-! ## C2: `transfer_ownership` is not atomic -/

/-- C2 (divergence witness): `transfer_ownership` is not wrapped in a
transaction, so a failure in the middle of its sequence leaves partial
mutation behind.  Concretely, transferring `t1` to its current owner (user 1,
who holds no groups) persists the owner's `is_superuser=False` demotion, then
raises `DeleteError` from the nested `remove_user` — and afterwards the
demotion is still visible instead of being rolled back. -/
theorem transfer_ownership_not_atomic :
    (transfer_ownership ⟨"t1", "t1.com", 1⟩ 1 exStateNoGroups).errOf
        = some .deleteError ∧
    permSuIn exStateNoGroups "t1" 1 = some true ∧
    permSuIn (transfer_ownership ⟨"t1", "t1.com", 1⟩ 1 exStateNoGroups).stateOf "t1" 1
        = some false ∧
    Inv exStateNoGroups := by
  decide

/-! ## C3: `delete_tenant` leaves an old owner with roles behind -/

/-- C3 (divergence witness): on tenant `t1` owned by user 1 — who keeps a
group role, so the demotion inside `transfer_ownership` does not remove them —
with member 2 iterated last, `delete_tenant` completes successfully yet user 1
is still a member of `t1` afterwards: the final membership test uses the stale
loop variable `user_obj` (= user 2, already removed) instead of `old_owner`,
contradicting the source's own comment that the old owner be removed when
still present after the transfer. -/
theorem delete_tenant_keeps_old_owner :
    (delete_tenant ⟨"t1", "t1.com", 1⟩ exStateGroups).isOk = true ∧
    memberIn (delete_tenant ⟨"t1", "t1.com", 1⟩ exStateGroups).stateOf "t1" 1 = true ∧
    Inv exStateGroups := by
  decide

end TenantUsers

namespace TenantUsers

theorem permsGet_eq (u : UserId) (s : SysState) (row : Tenant)
    (h : getTenant s s.schema_name = some row) :
    permsGet u s = (row.perms.find? (fun q => q.1 == u)).map (fun q => q.2) := by
  unfold permsGet
  rw [h]
  rfl

theorem find?_key_isSome (l : List (UserId × Perm)) (v : UserId)
    (hv : v ∈ l.map Prod.fst) :
    ∃ q, l.find? (fun q => q.1 == v) = some q := by
  obtain ⟨q, hq, hqv⟩ := List.mem_map.mp hv
  cases h : l.find? (fun q => q.1 == v) with
  | none =>
    exact absurd (by simp [hqv] : ((q.1 == v) = true))
      (List.find?_eq_none.mp h q hq)
  | some r => exact ⟨r, rfl⟩

theorem transfer_final_inv (s X : SysState) (name dom : String) (new : UserId)
    (rowPre : Tenant)
    (hInv : Inv s)
    (hse : SameExcept s X name)
    (hgX : getTenant X name = some rowPre)
    (hmem : new ∈ rowPre.members)
    (hnd1 : rowPre.members.Nodup) (hnd2 : (pkList rowPre).Nodup)
    (hme1 : ∀ v ∈ rowPre.members, v ∈ pkList rowPre)
    (hme2 : ∀ v ∈ pkList rowPre, v ∈ rowPre.members) :
    Inv (setSchema s.schema_name
        (updT name (fun t => { t with owner := new, domain_url := dom }) X))
    ∧ (setSchema s.schema_name
        (updT name (fun t => { t with owner := new, domain_url := dom }) X)).tenants.map
          (fun t => t.schema_name) = s.tenants.map (fun t => t.schema_name)
    ∧ (∃ row', getTenant (setSchema s.schema_name
        (updT name (fun t => { t with owner := new, domain_url := dom }) X)) name
          = some row' ∧ row'.owner = new)
    ∧ ∀ n, n ≠ name →
        (getTenant (setSchema s.schema_name
          (updT name (fun t => { t with owner := new, domain_url := dom }) X)) n).map
            (fun t => t.owner)
          = (getTenant s n).map (fun t => t.owner) := by
  have hfS : ∀ t : Tenant,
      (({ t with owner := new, domain_url := dom } : Tenant)).schema_name = t.schema_name :=
    fun t => rfl
  have hseX : SameExcept s (setSchema s.schema_name
      (updT name (fun t => { t with owner := new, domain_url := dom }) X)) name :=
    SameExcept_setSchema_left _ (SameExcept_trans hse (SameExcept_updT _ _ _ hfS))
  have hgF : getTenant (setSchema s.schema_name
      (updT name (fun t => { t with owner := new, domain_url := dom }) X)) name
      = some { rowPre with owner := new, domain_url := dom } := by
    show getTenant (updT name _ X) name = _
    rw [getTenant_updT_same _ _ _ hfS, hgX]
    rfl
  refine ⟨?_, hseX.1, ⟨_, hgF, rfl⟩, ?_⟩
  · apply Inv_of_SameExcept s _ name hInv hseX
    intro r' hr'
    rw [hgF] at hr'
    cases hr'
    exact ⟨hmem, hnd1, hnd2, hme1, hme2⟩
  · intro n hn
    rw [hseX.2.1 n hn]

end TenantUsers

namespace TenantUsers

theorem nodup_snoc {α : Type} (l : List α) (a : α) (h : l.Nodup) (ha : a ∉ l) :
    (l ++ [a]).Nodup := by
  rw [List.nodup_append]
  refine ⟨h, List.nodup_singleton a, ?_⟩
  intro x hx hb
  simp only [List.mem_singleton] at hb
  subst hb
  exact ha hx

theorem permsSet_post (u : UserId) (p : Perm) (X : SysState) (rowX : Tenant)
    (hX : getTenant X X.schema_name = some rowX) :
    ∃ row₂, SameExcept X (permsSet u p X) X.schema_name
      ∧ (permsSet u p X).schema_name = X.schema_name
      ∧ getTenant (permsSet u p X) X.schema_name = some row₂
      ∧ row₂.members = rowX.members
      ∧ row₂.perms = rowX.perms.map (fun q => if q.1 == u then (u, p) else q)
      ∧ row₂.schema_name = rowX.schema_name
      ∧ row₂.owner = rowX.owner
      ∧ row₂.domain_url = rowX.domain_url := by
  have hfP : ∀ t : Tenant,
      (({ t with perms := t.perms.map (fun q => if q.1 == u then (u, p) else q) } : Tenant)).schema_name
        = t.schema_name := fun t => rfl
  refine ⟨{ rowX with
      perms := rowX.perms.map (fun q => if q.1 == u then (u, p) else q) },
    ?_, rfl, ?_, rfl, rfl, rfl, rfl, rfl⟩
  · exact SameExcept_updT _ _ _ hfP
  · show getTenant (updT X.schema_name _ X) X.schema_name = _
    rw [getTenant_updT_same _ _ _ hfP, hX]
    rfl

theorem add_user_ok_post (self : TenantObj) (u : UserId) (su st : Bool) (s : SysState)
    (row : Tenant)
    (hrow : getTenant s self.schema_name = some row)
    (hmem : u ∉ row.members) :
    ∃ s₂ row₂, add_user self u su st s = .ok () s₂
      ∧ SameExcept s s₂ self.schema_name
      ∧ s₂.schema_name = s.schema_name
      ∧ getTenant s₂ self.schema_name = some row₂
      ∧ row₂.members = row.members ++ [u]
      ∧ row₂.perms = row.perms ++ [(u, (⟨st, su, []⟩ : Perm))]
      ∧ row₂.owner = row.owner
      ∧ row₂.domain_url = row.domain_url := by
  have hfA : ∀ t : Tenant,
      (({ t with perms := t.perms ++ [(u, (⟨st, su, []⟩ : Perm))] } : Tenant)).schema_name
        = t.schema_name := fun t => rfl
  have hfB : ∀ t : Tenant,
      ((if u ∈ t.members then t
        else { t with members := t.members ++ [u] } : Tenant)).schema_name = t.schema_name := by
    intro t
    split <;> rfl
  refine ⟨_, { row with
      members := row.members ++ [u]
      perms := row.perms ++ [(u, (⟨st, su, []⟩ : Perm))] },
    add_user_ok self u su st s row hrow hmem, ?_, rfl, ?_, rfl, rfl, rfl, rfl⟩
  · refine SameExcept_setSchema_left _ ?_
    show SameExcept s (updT self.schema_name _
      (updT self.schema_name _ (setSchema self.schema_name s))) self.schema_name
    refine SameExcept_trans ?_ (SameExcept_updT _ _ _ hfB)
    refine SameExcept_trans ?_ (SameExcept_updT _ _ _ hfA)
    exact SameExcept_setSchema _ _ _
  · show getTenant (updT self.schema_name _
      (updT self.schema_name _ (setSchema self.schema_name s))) self.schema_name = _
    rw [getTenant_updT_same _ _ _ hfB, getTenant_updT_same _ _ _ hfA,
      getTenant_setSchema, hrow]
    show some (if u ∈ ({ row with perms := row.perms ++ [(u, (⟨st, su, []⟩ : Perm))] } : Tenant).members
        then ({ row with perms := row.perms ++ [(u, (⟨st, su, []⟩ : Perm))] } : Tenant)
        else { ({ row with perms := row.perms ++ [(u, (⟨st, su, []⟩ : Perm))] } : Tenant) with
          members := ({ row with perms := row.perms ++ [(u, (⟨st, su, []⟩ : Perm))] } : Tenant).members ++ [u] })
      = _
    rw [if_neg (show u ∉ ({ row with perms := row.perms ++ [(u, (⟨st, su, []⟩ : Perm))] } : Tenant).members from hmem)]

theorem remove_user_ok_post (self : TenantObj) (u : UserId) (s : SysState)
    (row : Tenant) (p : Perm)
    (hrow : getTenant s self.schema_name = some row)
    (hmem : u ∈ row.members) (hown : u ≠ self.owner)
    (hpg : permsGet u (setSchema self.schema_name s) = some p) :
    ∃ s₂ row₂, remove_user self u s = .ok () s₂
      ∧ SameExcept s s₂ self.schema_name
      ∧ s₂.schema_name = s.schema_name
      ∧ getTenant s₂ self.schema_name = some row₂
      ∧ row₂.members = row.members.filter (fun v => v != u)
      ∧ row₂.perms = row.perms.filter (fun q => q.1 != u)
      ∧ row₂.owner = row.owner
      ∧ row₂.domain_url = row.domain_url := by
  have hfP : ∀ t : Tenant,
      (({ t with perms := t.perms.map (fun q => if q.1 == u then (u, { p with groups := [] }) else q) } : Tenant)).schema_name
        = t.schema_name := fun t => rfl
  have hfD : ∀ t : Tenant,
      (({ t with perms := t.perms.filter (fun q => q.1 != u) } : Tenant)).schema_name
        = t.schema_name := fun t => rfl
  have hfE : ∀ t : Tenant,
      (({ t with members := t.members.filter (fun v => v != u) } : Tenant)).schema_name
        = t.schema_name := fun t => rfl
  refine ⟨_, { row with
      members := row.members.filter (fun v => v != u)
      perms := row.perms.filter (fun q => q.1 != u) },
    remove_user_ok self u s row p hrow hmem hown hpg, ?_, rfl, ?_, rfl, rfl, rfl, rfl⟩
  · refine SameExcept_setSchema_left _ ?_
    show SameExcept s (updT self.schema_name _ (updT self.schema_name _
      (updT self.schema_name _ (setSchema self.schema_name s)))) self.schema_name
    refine SameExcept_trans ?_ (SameExcept_updT _ _ _ hfE)
    refine SameExcept_trans ?_ (SameExcept_updT _ _ _ hfD)
    refine SameExcept_trans ?_ (SameExcept_updT _ _ _ hfP)
    exact SameExcept_setSchema _ _ _
  · show getTenant (updT self.schema_name _ (updT self.schema_name _
      (updT self.schema_name _ (setSchema self.schema_name s)))) self.schema_name = _
    rw [getTenant_updT_same _ _ _ hfE, getTenant_updT_same _ _ _ hfD,
      getTenant_updT_same _ _ _ hfP, getTenant_setSchema, hrow]
    show some ({ row with
        members := ({ row with perms := row.perms.map (fun q => if q.1 == u then (u, { p with groups := [] }) else q) } : Tenant).members.filter (fun v => v != u)
        perms := (row.perms.map (fun q => if q.1 == u then (u, { p with groups := [] }) else q)).filter (fun q => q.1 != u) } : Tenant)
      = _
    rw [filter_key_after_replace]

end TenantUsers

namespace TenantUsers

theorem transfer_ownership_inv (self : TenantObj) (new_owner : UserId)
    (s s' : SysState) (tobj : TenantObj)
    (hInv : Inv s)
    (hcons : ∀ row, getTenant s self.schema_name = some row → self.owner = row.owner)
    (h : transfer_ownership self new_owner s = .ok tobj s') :
    Inv s'
      ∧ s'.tenants.map (fun t => t.schema_name) = s.tenants.map (fun t => t.schema_name)
      ∧ tobj = { self with owner := new_owner }
      ∧ (∃ row', getTenant s' self.schema_name = some row' ∧ row'.owner = new_owner)
      ∧ ∀ n, n ≠ self.schema_name →
          (getTenant s' n).map (fun t => t.owner) = (getTenant s n).map (fun t => t.owner) := by
  simp only [transfer_ownership, schema_required] at h
  cases hpg : permsGet self.owner (setSchema self.schema_name s) with
  | none =>
    rw [hpg] at h
    simp at h
  | some op =>
    rw [hpg] at h
    simp only [] at h
    have hrowfacts : ∃ row, getTenant s self.schema_name = some row := by
      have := hpg
      unfold permsGet at this
      simp only [setSchema_schema_name, getTenant_setSchema] at this
      cases hgt : getTenant s self.schema_name with
      | none =>
        rw [hgt] at this
        simp at this
      | some row => exact ⟨row, rfl⟩
    obtain ⟨row, hg⟩ := hrowfacts
    have hrowmem : row ∈ s.tenants := List.mem_of_find?_eq_some hg
    have hrname : row.schema_name = self.schema_name := by
      simpa using List.find?_some hg
    have hnames := hInv.2.1
    have howner : self.owner = row.owner := hcons row hg
    have hrowInv : TenantInv row := hInv.1 row hrowmem
    have hmemold : self.owner ∈ row.members := howner ▸ hrowInv.1
    obtain ⟨rowD, hseD, hschD, hgD, hMembD, hPermsD, hSND, hOwnD, hDomD⟩ :=
      permsSet_post self.owner { op with is_superuser := false }
        (setSchema self.schema_name s) row hg
    have hgD' : getTenant (permsSet self.owner { op with is_superuser := false }
        (setSchema self.schema_name s)) self.schema_name = some rowD := hgD
    have hse1 : SameExcept s (permsSet self.owner { op with is_superuser := false }
        (setSchema self.schema_name s)) self.schema_name :=
      SameExcept_trans (SameExcept_setSchema s self.schema_name self.schema_name) hseD
    have hPkD : pkList rowD = pkList row := by
      show rowD.perms.map Prod.fst = row.perms.map Prod.fst
      rw [hPermsD, map_fst_replace]
    have hmemD : self.owner ∈ rowD.members := by
      rw [hMembD]
      exact hmemold
    by_cases hge : op.groups.isEmpty = true
    · rw [if_pos hge] at h
      by_cases hon : self.owner = new_owner
      · -- self-transfer with no groups: the nested remove_user raises DeleteError
        have hrem_err : ∀ X : SysState, remove_user { self with owner := new_owner }
            self.owner (permsSet self.owner { op with is_superuser := false }
              (setSchema self.schema_name s)) ≠ .ok () X := by
          intro X hX
          simp only [remove_user, schema_required] at hX
          rw [getTenant_setSchema, hgD'] at hX
          simp only [] at hX
          rw [if_neg (not_not_intro hmemD), if_pos hon] at hX
          simp at hX
        cases hrm : remove_user { self with owner := new_owner } self.owner
            (permsSet self.owner { op with is_superuser := false }
              (setSchema self.schema_name s)) with
        | ok a s2 =>
          exact absurd (by cases a; exact hrm) (hrem_err s2)
        | err e s2 =>
          rw [hrm] at h
          simp at h
      · -- no groups, genuine transfer: the old owner is removed first
        obtain ⟨qd, hqd⟩ := find?_key_isSome rowD.perms self.owner
          (by show self.owner ∈ pkList rowD
              rw [hPkD]
              exact hrowInv.2.2.2.1 self.owner hmemold)
        have hpgd : permsGet self.owner (setSchema self.schema_name
            (permsSet self.owner { op with is_superuser := false }
              (setSchema self.schema_name s))) = some qd.2 := by
          unfold permsGet
          rw [setSchema_schema_name, getTenant_setSchema, hgD']
          show (rowD.perms.find? (fun q => q.1 == self.owner)).map (fun q => q.2) = some qd.2
          rw [hqd]
          rfl
        obtain ⟨s₂, row₂, hrem, hse₂, hsch₂, hg₂, hMemb₂, hPerms₂, hOwn₂, hDom₂⟩ :=
          remove_user_ok_post { self with owner := new_owner } self.owner
            (permsSet self.owner { op with is_superuser := false }
              (setSchema self.schema_name s)) rowD qd.2 hgD' hmemD hon hpgd
        rw [hrem] at h
        simp only [] at h
        have hsch₂' : s₂.schema_name = self.schema_name := hsch₂
        have hg₂' : getTenant s₂ self.schema_name = some row₂ := hg₂
        rw [hg₂'] at h
        simp only [] at h
        have hse2' : SameExcept s s₂ self.schema_name := SameExcept_trans hse1 hse₂
        have hMemb₂' : row₂.members = row.members.filter (fun v => v != self.owner) := by
          rw [hMemb₂, hMembD]
        have hPerms₂' : row₂.perms = row.perms.filter (fun q => q.1 != self.owner) := by
          rw [hPerms₂, hPermsD, filter_key_after_replace]
        have hPk₂ : pkList row₂ = (pkList row).filter (fun k => k != self.owner) := by
          show row₂.perms.map Prod.fst = (row.perms.map Prod.fst).filter (fun k => k != self.owner)
          rw [hPerms₂', map_fst_filter_key]
        have hnd1₂ : row₂.members.Nodup := by
          rw [hMemb₂']
          exact hrowInv.2.1.filter _
        have hnd2₂ : (pkList row₂).Nodup := by
          rw [hPk₂]
          exact hrowInv.2.2.1.filter _
        have hme1₂ : ∀ v ∈ row₂.members, v ∈ pkList row₂ := by
          intro v hv
          rw [hMemb₂'] at hv
          rw [hPk₂]
          rw [List.mem_filter] at hv ⊢
          exact ⟨hrowInv.2.2.2.1 v hv.1, hv.2⟩
        have hme2₂ : ∀ v ∈ pkList row₂, v ∈ row₂.members := by
          intro v hv
          rw [hPk₂] at hv
          rw [hMemb₂']
          rw [List.mem_filter] at hv ⊢
          exact ⟨hrowInv.2.2.2.2 v hv.1, hv.2⟩
        by_cases hnm : new_owner ∈ row₂.members
        · -- promote the existing permissions row of the new owner
          rw [if_pos (decide_eq_true hnm)] at h
          obtain ⟨qp, hqp⟩ := find?_key_isSome row₂.perms new_owner (hme1₂ new_owner hnm)
          have hpgp : permsGet new_owner s₂ = some qp.2 := by
            unfold permsGet
            rw [hsch₂', hg₂']
            show (row₂.perms.find? (fun q => q.1 == new_owner)).map (fun q => q.2) = some qp.2
            rw [hqp]
            rfl
          rw [hpgp] at h
          simp only [] at h
          obtain ⟨rowP, hseP, hschP, hgP, hMembP, hPermsP, hSNP, hOwP, hDomP⟩ :=
            permsSet_post new_owner { qp.2 with is_superuser := true } s₂ row₂
              (by rw [hsch₂']
                  exact hg₂')
          have hgP' : getTenant (permsSet new_owner { qp.2 with is_superuser := true } s₂)
              self.schema_name = some rowP := by
            rw [← hsch₂']
            exact hgP
          have hseP' : SameExcept s₂ (permsSet new_owner { qp.2 with is_superuser := true } s₂)
              self.schema_name := by
            rw [← hsch₂']
            exact hseP
          have hseX : SameExcept s (permsSet new_owner { qp.2 with is_superuser := true } s₂)
              self.schema_name := SameExcept_trans hse2' hseP'
          have hPkP : pkList rowP = pkList row₂ := by
            show rowP.perms.map Prod.fst = row₂.perms.map Prod.fst
            rw [hPermsP, map_fst_replace]
          simp only [Res.ok.injEq] at h
          obtain ⟨h1, h2⟩ := h
          subst h2
          obtain ⟨hI, hN, hEx, hOw⟩ := transfer_final_inv s _ self.schema_name
            self.domain_url new_owner rowP hInv hseX hgP'
            (by rw [hMembP]; exact hnm)
            (by rw [hMembP]; exact hnd1₂)
            (by rw [hPkP]; exact hnd2₂)
            (fun v hv => by rw [hPkP]; exact hme1₂ v (hMembP ▸ hv))
            (fun v hv => by rw [hMembP]; exact hme2₂ v (hPkP ▸ hv))
          exact ⟨hI, hN, h1.symm, hEx, hOw⟩
        · -- the new owner is not a member: add them with superuser permissions
          rw [if_neg (show ¬ decide (new_owner ∈ row₂.members) = true from by simp [hnm])] at h
          obtain ⟨s₃, rowA, hadd, hseA, hschA, hgA, hMembA, hPermsA, hOwA, hDomA⟩ :=
            add_user_ok_post { self with owner := new_owner } new_owner true false s₂ row₂
              hg₂' hnm
          rw [hadd] at h
          simp only [] at h
          have hgA' : getTenant s₃ self.schema_name = some rowA := hgA
          have hseA' : SameExcept s₂ s₃ self.schema_name := hseA
          have hseX : SameExcept s s₃ self.schema_name := SameExcept_trans hse2' hseA'
          have hnmPk₂ : new_owner ∉ pkList row₂ := fun hh => hnm (hme2₂ new_owner hh)
          have hPkA : pkList rowA = pkList row₂ ++ [new_owner] := by
            show rowA.perms.map Prod.fst = pkList row₂ ++ [new_owner]
            rw [hPermsA, List.map_append]
            rfl
          simp only [Res.ok.injEq] at h
          obtain ⟨h1, h2⟩ := h
          subst h2
          obtain ⟨hI, hN, hEx, hOw⟩ := transfer_final_inv s _ self.schema_name
            self.domain_url new_owner rowA hInv hseX hgA'
            (by rw [hMembA]; exact List.mem_append_right _ (List.mem_singleton.mpr rfl))
            (by rw [hMembA]; exact nodup_snoc _ _ hnd1₂ hnm)
            (by rw [hPkA]; exact nodup_snoc _ _ hnd2₂ hnmPk₂)
            (fun v hv => by
              rw [hMembA] at hv
              rw [hPkA]
              rcases List.mem_append.mp hv with hv1 | hv2
              · exact List.mem_append_left _ (hme1₂ v hv1)
              · exact List.mem_append_right _ hv2)
            (fun v hv => by
              rw [hPkA] at hv
              rw [hMembA]
              rcases List.mem_append.mp hv with hv1 | hv2
              · exact List.mem_append_left _ (hme2₂ v hv1)
              · exact List.mem_append_right _ hv2)
          exact ⟨hI, hN, h1.symm, hEx, hOw⟩
    · -- the old owner has groups and stays a member
      rw [if_neg hge] at h
      simp only [] at h
      rw [hgD'] at h
      simp only [] at h
      by_cases hnm : new_owner ∈ rowD.members
      · -- promote the existing permissions row of the new owner
        rw [if_pos (decide_eq_true hnm)] at h
        have hnmPk : new_owner ∈ pkList rowD := by
          rw [hPkD]
          rw [hMembD] at hnm
          exact hrowInv.2.2.2.1 new_owner hnm
        obtain ⟨qp, hqp⟩ := find?_key_isSome rowD.perms new_owner hnmPk
        have hpgp : permsGet new_owner (permsSet self.owner { op with is_superuser := false }
            (setSchema self.schema_name s)) = some qp.2 := by
          unfold permsGet
          rw [show (permsSet self.owner { op with is_superuser := false }
            (setSchema self.schema_name s)).schema_name = self.schema_name from rfl, hgD']
          show (rowD.perms.find? (fun q => q.1 == new_owner)).map (fun q => q.2) = some qp.2
          rw [hqp]
          rfl
        rw [hpgp] at h
        simp only [] at h
        obtain ⟨rowP, hseP, hschP, hgP, hMembP, hPermsP, hSNP, hOwP, hDomP⟩ :=
          permsSet_post new_owner { qp.2 with is_superuser := true }
            (permsSet self.owner { op with is_superuser := false }
              (setSchema self.schema_name s)) rowD hgD'
        have hgP' : getTenant (permsSet new_owner { qp.2 with is_superuser := true }
            (permsSet self.owner { op with is_superuser := false }
              (setSchema self.schema_name s))) self.schema_name = some rowP := hgP
        have hseX : SameExcept s (permsSet new_owner { qp.2 with is_superuser := true }
            (permsSet self.owner { op with is_superuser := false }
              (setSchema self.schema_name s))) self.schema_name :=
          SameExcept_trans hse1 hseP
        have hMembP' : rowP.members = row.members := hMembP.trans hMembD
        have hPkP : pkList rowP = pkList row := by
          show rowP.perms.map Prod.fst = pkList row
          rw [hPermsP, map_fst_replace]
          exact hPkD
        simp only [Res.ok.injEq] at h
        obtain ⟨h1, h2⟩ := h
        subst h2
        obtain ⟨hI, hN, hEx, hOw⟩ := transfer_final_inv s _ self.schema_name
          self.domain_url new_owner rowP hInv hseX hgP'
          (by rw [hMembP']; rw [hMembD] at hnm; exact hnm)
          (by rw [hMembP']; exact hrowInv.2.1)
          (by rw [hPkP]; exact hrowInv.2.2.1)
          (fun v hv => by rw [hPkP]; exact hrowInv.2.2.2.1 v (hMembP' ▸ hv))
          (fun v hv => by rw [hMembP']; exact hrowInv.2.2.2.2 v (hPkP ▸ hv))
        exact ⟨hI, hN, h1.symm, hEx, hOw⟩
      · -- the new owner is not a member: add them with superuser permissions
        rw [if_neg (show ¬ decide (new_owner ∈ rowD.members) = true from by simp [hnm])] at h
        obtain ⟨s₃, rowA, hadd, hseA, hschA, hgA, hMembA, hPermsA, hOwA, hDomA⟩ :=
          add_user_ok_post { self with owner := new_owner } new_owner true false
            (permsSet self.owner { op with is_superuser := false }
              (setSchema self.schema_name s)) rowD hgD' hnm
        rw [hadd] at h
        simp only [] at h
        have hgA' : getTenant s₃ self.schema_name = some rowA := hgA
        have hseA' : SameExcept (permsSet self.owner { op with is_superuser := false }
            (setSchema self.schema_name s)) s₃ self.schema_name := hseA
        have hseX : SameExcept s s₃ self.schema_name := SameExcept_trans hse1 hseA'
        have hnmM : new_owner ∉ row.members := by
          rw [hMembD] at hnm
          exact hnm
        have hnmPk : new_owner ∉ pkList row := fun hh => hnmM (hrowInv.2.2.2.2 new_owner hh)
        have hMembA' : rowA.members = row.members ++ [new_owner] := by
          rw [hMembA, hMembD]
        have hPkA : pkList rowA = pkList row ++ [new_owner] := by
          show rowA.perms.map Prod.fst = pkList row ++ [new_owner]
          rw [hPermsA, List.map_append]
          rw [show rowD.perms.map Prod.fst = pkList row from hPkD]
          rfl
        simp only [Res.ok.injEq] at h
        obtain ⟨h1, h2⟩ := h
        subst h2
        obtain ⟨hI, hN, hEx, hOw⟩ := transfer_final_inv s _ self.schema_name
          self.domain_url new_owner rowA hInv hseX hgA'
          (by rw [hMembA']; exact List.mem_append_right _ (List.mem_singleton.mpr rfl))
          (by rw [hMembA']; exact nodup_snoc _ _ hrowInv.2.1 hnmM)
          (by rw [hPkA]; exact nodup_snoc _ _ hrowInv.2.2.1 hnmPk)
          (fun v hv => by
            rw [hMembA'] at hv
            rw [hPkA]
            rcases List.mem_append.mp hv with hv1 | hv2
            · exact List.mem_append_left _ (hrowInv.2.2.2.1 v hv1)
            · exact List.mem_append_right _ hv2)
          (fun v hv => by
            rw [hPkA] at hv
            rw [hMembA']
            rcases List.mem_append.mp hv with hv1 | hv2
            · exact List.mem_append_left _ (hrowInv.2.2.2.2 v hv1)
            · exact List.mem_append_right _ hv2)
        exact ⟨hI, hN, h1.symm, hEx, hOw⟩

end TenantUsers

namespace TenantUsers

theorem removeLoop_inv (self : TenantObj) (l : List UserId) (s s' : SysState)
    (hInv : Inv s)
    (hcons : ∀ row, getTenant s self.schema_name = some row → self.owner = row.owner)
    (h : removeLoop self l s = .ok () s') :
    Inv s'
      ∧ s'.tenants.map (fun t => t.schema_name) = s.tenants.map (fun t => t.schema_name)
      ∧ ∀ n, (getTenant s' n).map (fun t => t.owner)
          = (getTenant s n).map (fun t => t.owner) := by
  induction l generalizing s with
  | nil =>
    simp only [removeLoop, Res.ok.injEq] at h
    obtain ⟨-, h⟩ := h
    subst h
    exact ⟨hInv, rfl, fun n => rfl⟩
  | cons u rest ih =>
    simp only [removeLoop] at h
    by_cases hu : u = self.owner
    · rw [if_pos hu] at h
      exact ih s hInv hcons h
    · rw [if_neg hu] at h
      cases hr : remove_user self u s with
      | err e s₁ =>
        rw [hr] at h
        simp at h
      | ok a s₁ =>
        cases a
        rw [hr] at h
        simp only [] at h
        obtain ⟨hI1, hN1, hO1⟩ := remove_user_inv self u s s₁ hInv hcons hr
        have hcons1 : ∀ row, getTenant s₁ self.schema_name = some row
            → self.owner = row.owner := by
          intro r hgr
          have hmap := hO1 self.schema_name
          rw [hgr] at hmap
          cases hg0 : getTenant s self.schema_name with
          | none =>
            rw [hg0] at hmap
            simp at hmap
          | some row0 =>
            rw [hg0] at hmap
            simp only [Option.map_some'] at hmap
            injection hmap with hh
            rw [hh]
            exact hcons row0 hg0
        obtain ⟨hI, hN, hO⟩ := ih s₁ hI1 hcons1 h
        exact ⟨hI, hN.trans hN1, fun n => (hO n).trans (hO1 n)⟩

theorem hcons_of_objOf (s : SysState) (row : Tenant) (hInv : Inv s) (hrow : row ∈ s.tenants) :
    ∀ r, getTenant s (objOf row).schema_name = some r → (objOf row).owner = r.owner := by
  intro r hr
  have hg : getTenant s row.schema_name = some row := getTenant_of_mem s row hInv.2.1 hrow
  rw [show (objOf row).schema_name = row.schema_name from rfl, hg] at hr
  injection hr with hh
  rw [hh]
  rfl

theorem delete_tenant_inv (self : TenantObj) (s s' : SysState) (tobj : TenantObj)
    (hInv : Inv s)
    (hcons : ∀ row, getTenant s self.schema_name = some row → self.owner = row.owner)
    (h : delete_tenant self s = .ok tobj s') :
    Inv s' := by
  simp only [delete_tenant] at h
  by_cases hpub : self.schema_name = publicSchemaName
  · rw [if_pos hpub] at h
    simp at h
  · rw [if_neg hpub] at h
    cases hg0 : getTenant s self.schema_name with
    | none =>
      rw [hg0] at h
      simp at h
    | some t0 =>
      rw [hg0] at h
      simp only [] at h
      cases hrl : removeLoop self t0.members s with
      | err e s₁ =>
        rw [hrl] at h
        simp at h
      | ok a s₁ =>
        cases a
        rw [hrl] at h
        simp only [] at h
        obtain ⟨hI1, hN1, hO1⟩ := removeLoop_inv self t0.members s s₁ hInv hcons hrl
        have hcons1 : ∀ row, getTenant s₁ self.schema_name = some row
            → self.owner = row.owner := by
          intro r hgr
          have hmap := hO1 self.schema_name
          rw [hgr, hg0] at hmap
          simp only [Option.map_some'] at hmap
          injection hmap with hh
          rw [hh]
          exact hcons t0 hg0
        cases hgp : getTenant s₁ publicSchemaName with
        | none =>
          rw [hgp] at h
          simp at h
        | some public_tenant =>
          rw [hgp] at h
          simp only [] at h
          cases hto : transfer_ownership { self with
              domain_url := toString s₁.now ++ "-" ++ toString self.owner ++ "-" ++ self.domain_url }
              public_tenant.owner s₁ with
          | err e s₂ =>
            rw [hto] at h
            simp at h
          | ok tnew s₂ =>
            rw [hto] at h
            simp only [] at h
            obtain ⟨hI2, hN2, htnew, hEx2, hOw2⟩ :=
              transfer_ownership_inv { self with
                  domain_url := toString s₁.now ++ "-" ++ toString self.owner ++ "-" ++ self.domain_url }
                public_tenant.owner s₁ s₂ tnew hI1 hcons1 hto
            subst htnew
            simp only [] at h
            obtain ⟨rowT, hgT, hOwT⟩ := hEx2
            have hgT' : getTenant s₂ self.schema_name = some rowT := hgT
            cases hlast : t0.members.getLast? with
            | none =>
              rw [hlast] at h
              simp at h
            | some last_user =>
              rw [hlast] at h
              simp only [] at h
              rw [hgT'] at h
              simp only [] at h
              by_cases hst : last_user ∈ rowT.members
              · rw [if_pos (decide_eq_true hst)] at h
                cases hrm : remove_user (⟨self.schema_name,
                    toString s₁.now ++ "-" ++ toString self.owner ++ "-" ++ self.domain_url,
                    public_tenant.owner⟩ : TenantObj) self.owner s₂ with
                | err e s₃ =>
                  rw [hrm] at h
                  simp at h
                | ok a s₃ =>
                  cases a
                  rw [hrm] at h
                  simp only [Res.ok.injEq] at h
                  obtain ⟨-, h2⟩ := h
                  subst h2
                  refine (remove_user_inv _ self.owner s₂ s₃ hI2 ?_ hrm).1
                  intro r hr
                  have hr' : getTenant s₂ self.schema_name = some r := hr
                  rw [hgT'] at hr'
                  injection hr' with hh
                  exact hh ▸ hOwT.symm
              · rw [if_neg (show ¬ decide (last_user ∈ rowT.members) = true from by simp [hst])] at h
                simp only [Res.ok.injEq] at h
                obtain ⟨-, h2⟩ := h
                subst h2
                exact hI2

end TenantUsers

namespace TenantUsers

theorem UPM_finish_inv (profile0 : UserRec) (E' : String) (pwd : Option String)
    (st su ver : Bool) (extra : List (String × Bool)) (s s' : SysState) (u : UserRec)
    (hInv : Inv s)
    (h : UPM_finish profile0 E' pwd st su ver extra s = .ok u s') :
    Inv s' := by
  simp only [UPM_finish] at h
  have hI1 : Inv (saveUser (applyExtra extra { profile0 with
      email := E', is_active := true, is_verified := ver, cred := set_password pwd }) s) :=
    (Inv_saveUser _ _).mpr hInv
  cases hgp : getTenant (saveUser (applyExtra extra { profile0 with
      email := E', is_active := true, is_verified := ver, cred := set_password pwd }) s)
      publicSchemaName with
  | none =>
    rw [hgp] at h
    simp at h
  | some pub =>
    rw [hgp] at h
    simp only [] at h
    cases hau : add_user (objOf pub) (applyExtra extra { profile0 with
        email := E', is_active := true, is_verified := ver, cred := set_password pwd }).pk
        false false (saveUser (applyExtra extra { profile0 with
        email := E', is_active := true, is_verified := ver, cred := set_password pwd }) s) with
    | err e s₂ =>
      rw [hau] at h
      simp at h
    | ok a s₂ =>
      cases a
      rw [hau] at h
      simp only [] at h
      have hI2 : Inv s₂ := (add_user_inv _ _ false false _ s₂ hI1 hau).1
      by_cases hsf : (st || su) = true
      · rw [if_pos hsf] at h
        cases hpq : permsGet (applyExtra extra { profile0 with
            email := E', is_active := true, is_verified := ver, cred := set_password pwd }).pk s₂ with
        | none =>
          rw [hpq] at h
          simp at h
        | some q =>
          rw [hpq] at h
          simp only [Res.ok.injEq] at h
          obtain ⟨-, h2⟩ := h
          subst h2
          exact permsSet_inv _ _ _ hI2
      · rw [if_neg hsf] at h
        simp only [Res.ok.injEq] at h
        obtain ⟨-, h2⟩ := h
        subst h2
        exact hI2

theorem UPM_create_user_inner_inv (email : String) (pwd : Option String)
    (st su ver : Bool) (extra : List (String × Bool)) (s s' : SysState) (u : UserRec)
    (hInv : Inv s)
    (h : UPM_create_user_inner email pwd st su ver extra s = .ok u s') :
    Inv s' := by
  simp only [UPM_create_user_inner] at h
  by_cases h1 : s.schema_name ≠ publicSchemaName
  · rw [if_pos h1] at h
    simp at h
  · rw [if_neg h1] at h
    by_cases h2 : email = ""
    · rw [if_pos h2] at h
      simp at h
    · rw [if_neg h2] at h
      cases hf : s.users.find? (fun v => v.email == normalize_email email) with
      | none =>
        rw [hf] at h
        simp only [] at h
        exact UPM_finish_inv _ _ _ _ _ _ _ _ _ _ hInv h
      | some p =>
        rw [hf] at h
        simp only [] at h
        by_cases hact : p.is_active = true
        · rw [if_pos hact] at h
          simp at h
        · rw [if_neg hact] at h
          exact UPM_finish_inv _ _ _ _ _ _ _ _ _ _ hInv h

theorem UPM_create_user_inv (email : String) (pwd : Option String) (st : Bool)
    (extra : List (String × Bool)) (s s' : SysState) (u : UserRec)
    (hInv : Inv s)
    (h : UPM_create_user email pwd st extra s = .ok u s') :
    Inv s' := by
  simp only [UPM_create_user] at h
  cases hi : UPM_create_user_inner email pwd st false false extra s with
  | err e s₂ =>
    rw [hi] at h
    simp at h
  | ok u0 s₂ =>
    rw [hi] at h
    simp only [Res.ok.injEq] at h
    obtain ⟨-, h2⟩ := h
    subst h2
    exact UPM_create_user_inner_inv _ _ _ _ _ _ _ _ _ hInv hi

theorem deleteLoop_inv (user_pk : UserId) (names : List String) (s s' : SysState)
    (hInv : Inv s) (h : deleteLoop user_pk names s = .ok () s') : Inv s' := by
  induction names generalizing s with
  | nil =>
    simp only [deleteLoop, Res.ok.injEq] at h
    obtain ⟨-, h⟩ := h
    subst h
    exact hInv
  | cons name rest ih =>
    simp only [deleteLoop] at h
    cases hg : getTenant s name with
    | none =>
      rw [hg] at h
      simp at h
    | some t =>
      rw [hg] at h
      simp only [] at h
      have htmem : t ∈ s.tenants := List.mem_of_find?_eq_some hg
      by_cases ho : t.owner = user_pk
      · rw [if_pos ho] at h
        cases hd : delete_tenant (objOf t) s with
        | err e s₂ =>
          rw [hd] at h
          simp at h
        | ok tb s₂ =>
          rw [hd] at h
          simp only [] at h
          exact ih s₂ (delete_tenant_inv (objOf t) s s₂ tb hInv
            (hcons_of_objOf s t hInv htmem) hd) h
      · rw [if_neg ho] at h
        cases hr : remove_user (objOf t) user_pk s with
        | err e s₂ =>
          rw [hr] at h
          simp at h
        | ok a s₂ =>
          cases a
          rw [hr] at h
          simp only [] at h
          exact ih s₂ (remove_user_inv (objOf t) user_pk s s₂ hInv
            (hcons_of_objOf s t hInv htmem) hr).1 h

theorem UPM_delete_user_inv (user_obj : UserRec) (s s' : SysState)
    (hInv : Inv s) (h : UPM_delete_user user_obj s = .ok () s') : Inv s' := by
  simp only [UPM_delete_user] at h
  cases hgp : getTenant s publicSchemaName with
  | none =>
    rw [hgp] at h
    simp at h
  | some pub =>
    rw [hgp] at h
    simp only [] at h
    by_cases he : user_obj.pk = pub.owner
    · rw [if_pos he] at h
      simp at h
    · rw [if_neg he] at h
      cases hdl : deleteLoop user_obj.pk ((s.tenants.filter
          (fun t => user_obj.pk ∈ t.members)).map (fun t => t.schema_name)) s with
      | err e s₂ =>
        rw [hdl] at h
        simp at h
      | ok a s₂ =>
        cases a
        rw [hdl] at h
        simp only [Res.ok.injEq] at h
        obtain ⟨-, h2⟩ := h
        subst h2
        exact (Inv_saveUser _ _).mpr (deleteLoop_inv _ _ s s₂ hInv hdl)

theorem runOp_inv (op : Op) (s s' : SysState) (hInv : Inv s) (hok : opOK op s)
    (h : runOp op s = .ok () s') : Inv s' := by
  cases op with
  | createUser e pw st extra =>
    simp only [runOp] at h
    cases hc : UPM_create_user e pw st extra s with
    | err e2 s2 =>
      rw [hc] at h
      simp at h
    | ok u s2 =>
      rw [hc] at h
      simp only [Res.ok.injEq] at h
      obtain ⟨-, h2⟩ := h
      subst h2
      exact UPM_create_user_inv e pw st extra s s2 u hInv hc
  | createSuperuser pw e extra =>
    simp only [runOp, UPM_create_superuser] at h
    cases hc : UPM_create_user_inner e pw true true true extra s with
    | err e2 s2 =>
      rw [hc] at h
      simp at h
    | ok u s2 =>
      rw [hc] at h
      simp only [Res.ok.injEq] at h
      obtain ⟨-, h2⟩ := h
      subst h2
      exact UPM_create_user_inner_inv e pw true true true extra s s2 u hInv hc
  | deleteUser u =>
    simp only [runOp] at h
    exact UPM_delete_user_inv u s s' hInv h
  | addUser t u su st =>
    simp only [runOp] at h
    exact (add_user_inv t u su st s s' hInv h).1
  | removeUser t u =>
    simp only [runOp] at h
    simp only [opOK] at hok
    obtain ⟨row, hrow, rfl⟩ := hok
    exact (remove_user_inv (objOf row) u s s' hInv
      (hcons_of_objOf s row hInv hrow) h).1
  | transferOwnership t u =>
    simp only [runOp] at h
    simp only [opOK] at hok
    obtain ⟨row, hrow, rfl⟩ := hok
    cases hc : transfer_ownership (objOf row) u s with
    | err e2 s2 =>
      rw [hc] at h
      simp at h
    | ok tb s2 =>
      rw [hc] at h
      simp only [Res.ok.injEq] at h
      obtain ⟨-, h2⟩ := h
      subst h2
      exact (transfer_ownership_inv (objOf row) u s s2 tb hInv
        (hcons_of_objOf s row hInv hrow) hc).1
  | deleteTenant t =>
    simp only [runOp] at h
    simp only [opOK] at hok
    obtain ⟨row, hrow, rfl⟩ := hok
    cases hc : delete_tenant (objOf row) s with
    | err e2 s2 =>
      rw [hc] at h
      simp at h
    | ok tb s2 =>
      rw [hc] at h
      simp only [Res.ok.injEq] at h
      obtain ⟨-, h2⟩ := h
      subst h2
      exact delete_tenant_inv (objOf row) s s2 tb hInv
        (hcons_of_objOf s row hInv hrow) hc

/-- C1: for every tenant and every caller-facing operation (createUser,
createSuperuser, deleteUser, addUser, removeUser, transferOwnership,
deleteTenant) that completes successfully from a state satisfying the
invariant, every tenant row of the resulting state has its owner among its
members and exactly one permissions record per member. -/
theorem ops_preserve_owner_membership_and_unique_perm (op : Op) (s s' : SysState)
    (hInv : Inv s) (hok : opOK op s) (h : runOp op s = .ok () s') :
    ∀ t ∈ s'.tenants, t.owner ∈ t.members ∧ ∀ u ∈ t.members, permCount t u = 1 := by
  have hI := runOp_inv op s s' hInv hok h
  intro t ht
  obtain ⟨h1, h2, h3, h4, h5⟩ := hI.1 t ht
  refine ⟨h1, ?_⟩
  intro u hu
  exact List.count_eq_one_of_mem h3 (h4 u hu)

theorem ops_preserve_owner_membership_and_unique_perm_witness :
    (⟨"t1", "t1.com", 1, [1, 2, 3], [(1, exPermGroups), (2, exPermMember),
        (3, ⟨false, false, []⟩)]⟩ : Tenant).owner
      ∈ (⟨"t1", "t1.com", 1, [1, 2, 3], [(1, exPermGroups), (2, exPermMember),
        (3, ⟨false, false, []⟩)]⟩ : Tenant).members
    ∧ permCount (⟨"t1", "t1.com", 1, [1, 2, 3], [(1, exPermGroups), (2, exPermMember),
        (3, ⟨false, false, []⟩)]⟩ : Tenant) 3 = 1 :=
  (fun h => ⟨h.1, h.2 3 (by decide)⟩)
    (ops_preserve_owner_membership_and_unique_perm
      (.addUser (objOf exT1Groups) 3 false false) exStateGroups
      ((runOp (.addUser (objOf exT1Groups) 3 false false) exStateGroups).stateOf)
      (by decide) ⟨exT1Groups, by decide, rfl⟩ (by decide)
      ⟨"t1", "t1.com", 1, [1, 2, 3], [(1, exPermGroups), (2, exPermMember),
        (3, ⟨false, false, []⟩)]⟩
      (by decide))

end TenantUsers
